import Mathlib

/-!
Verification development for the Betfair underdog-martingale bot
(single Node.js source file, src/bot.js).  Every definition below is a
shallow embedding of a function or a piece of state of that program;
the theorems check the design document's claims against them.

JavaScript numbers are modelled as rationals, the market store
(a JS object keyed by market id) as an association list, and fallible
or optional JS values as Option.
-/

namespace UnderdogBot

/-! ## Frame decoder

The stream data handler (bot.js lines 400-417) appends each incoming
chunk to a global string buffer and repeatedly splits off the text
before the first occurrence of the two-byte terminator CR LF, handing
every complete frame to the message handler.  We model the buffer as a
list of characters. -/

def CRLF : List Char := ['\r', '\n']

/-- Model of the buffer search for the first CR-LF terminator followed by the
two slices the handler takes: the text before the first terminator and the
text after it, or `none` when the buffer holds no terminator. -/
def findFrame : List Char → Option (List Char × List Char)
  | [] => none
  | [_] => none
  | c :: d :: rest =>
    if c = '\r' ∧ d = '\n' then some ([], rest)
    else (findFrame (d :: rest)).map (fun p => (c :: p.1, p.2))

theorem findFrame_length : ∀ (buf f r : List Char),
    findFrame buf = some (f, r) → f.length + 2 + r.length = buf.length := by
  intro buf
  induction buf using findFrame.induct with
  | case1 => intro f r h; simp [findFrame] at h
  | case2 c => intro f r h; simp [findFrame] at h
  | case3 c d rest hcd =>
    intro f r h
    rw [findFrame, if_pos hcd] at h
    cases h
    simp only [List.length_nil, List.length_cons]
    omega
  | case4 c d rest hcd ih =>
    intro f r h
    rw [findFrame, if_neg hcd] at h
    rcases Option.map_eq_some'.mp h with ⟨⟨f', r'⟩, hf', hmk⟩
    cases hmk
    have := ih f' r' hf'
    simp only [List.length_cons] at this ⊢
    omega

/-- Slicing off a frame decomposes the buffer around the first terminator. -/
theorem findFrame_decomp : ∀ (buf f r : List Char),
    findFrame buf = some (f, r) → buf = f ++ CRLF ++ r := by
  intro buf
  induction buf using findFrame.induct with
  | case1 => intro f r h; simp [findFrame] at h
  | case2 c => intro f r h; simp [findFrame] at h
  | case3 c d rest hcd =>
    intro f r h
    rw [findFrame, if_pos hcd] at h
    cases h
    simp [CRLF, hcd.1, hcd.2]
  | case4 c d rest hcd ih =>
    intro f r h
    rw [findFrame, if_neg hcd] at h
    rcases Option.map_eq_some'.mp h with ⟨⟨f', r'⟩, hf', hmk⟩
    cases hmk
    have := ih f' r' hf'
    simp [this]

/-- A terminator-free text followed by a terminator and anything else is split
exactly at that terminator. -/
theorem findFrame_of_clean : ∀ (f : List Char), ∀ (rest : List Char),
    findFrame f = none → findFrame (f ++ CRLF ++ rest) = some (f, rest) := by
  intro f
  induction f using findFrame.induct with
  | case1 =>
    intro rest _
    show findFrame ('\r' :: '\n' :: rest) = some ([], rest)
    rw [findFrame]
    simp
  | case2 c =>
    intro rest _
    show findFrame (c :: '\r' :: '\n' :: rest) = some ([c], rest)
    rw [findFrame]
    have hne : ¬ (c = '\r' ∧ '\r' = '\n') := by simp
    rw [if_neg hne]
    rw [show findFrame ('\r' :: '\n' :: rest) = some ([], rest) by rw [findFrame]; simp]
    rfl
  | case3 c d f' hcd =>
    intro rest hf
    rw [findFrame, if_pos hcd] at hf
    simp at hf
  | case4 c d f' hcd ih =>
    intro rest hf
    rw [findFrame, if_neg hcd] at hf
    have hrec : findFrame (d :: f') = none := by
      cases h : findFrame (d :: f') with
      | none => rfl
      | some p => rw [h] at hf; simp at hf
    have h2 := ih rest hrec
    show findFrame (c :: d :: (f' ++ CRLF ++ rest)) = some (c :: d :: f', rest)
    rw [findFrame, if_neg hcd]
    have h2' : findFrame (d :: (f' ++ CRLF ++ rest)) = some (d :: f', rest) := by
      have heq : (d :: f') ++ CRLF ++ rest = d :: (f' ++ CRLF ++ rest) := by simp
      rw [heq] at h2
      exact h2
    rw [h2']
    rfl

/-- The first terminator of a buffer stays the first terminator after more
bytes are appended. -/
theorem findFrame_append_of_some : ∀ (buf f r w : List Char),
    findFrame buf = some (f, r) → findFrame (buf ++ w) = some (f, r ++ w) := by
  intro buf
  induction buf using findFrame.induct with
  | case1 => intro f r w h; simp [findFrame] at h
  | case2 c => intro f r w h; simp [findFrame] at h
  | case3 c d rest hcd =>
    intro f r w h
    rw [findFrame, if_pos hcd] at h
    cases h
    show findFrame (c :: d :: (rest ++ w)) = some ([], rest ++ w)
    rw [findFrame, if_pos hcd]
  | case4 c d rest hcd ih =>
    intro f r w h
    rw [findFrame, if_neg hcd] at h
    rcases Option.map_eq_some'.mp h with ⟨⟨f', r'⟩, hf', hmk⟩
    cases hmk
    have h2 := ih f' r' w hf'
    show findFrame (c :: (d :: rest ++ w)) = some (c :: f', r' ++ w)
    rw [findFrame.eq_def]
    simp only [List.cons_append]
    rw [if_neg hcd]
    rw [List.cons_append] at h2
    rw [h2]
    rfl

/-- Model of the splitting loop: drain every complete frame from the buffer,
returning the frames in order together with the retained remainder. -/
def drainFrames (buf : List Char) : List (List Char) × List Char :=
  match h : findFrame buf with
  | none => ([], buf)
  | some (f, r) =>
    let p := drainFrames r
    (f :: p.1, p.2)
termination_by buf.length
decreasing_by
  have := findFrame_length buf f r h
  omega

theorem drainFrames_none {buf : List Char} (h : findFrame buf = none) :
    drainFrames buf = ([], buf) := by
  rw [drainFrames]
  split
  · rfl
  · rename_i f r heq
    rw [h] at heq
    exact absurd heq (by simp)

theorem drainFrames_some {buf f r : List Char} (h : findFrame buf = some (f, r)) :
    drainFrames buf = (f :: (drainFrames r).1, (drainFrames r).2) := by
  rw [drainFrames]
  split
  · rename_i heq
    rw [h] at heq
    exact absurd heq (by simp)
  · rename_i f' r' heq
    rw [h] at heq
    cases heq
    rfl

/-- The retained remainder after draining never contains a terminator. -/
theorem findFrame_drainFrames (buf : List Char) :
    findFrame (drainFrames buf).2 = none := by
  suffices H : ∀ n : ℕ, ∀ buf : List Char, buf.length ≤ n →
      findFrame (drainFrames buf).2 = none from H buf.length buf le_rfl
  intro n
  induction n with
  | zero =>
    intro buf hb
    have : buf = [] := List.length_eq_zero.mp (Nat.le_zero.mp hb)
    subst this
    have h0 : findFrame ([] : List Char) = none := rfl
    rw [drainFrames_none h0]
    exact h0
  | succ n ih =>
    intro buf hb
    cases h : findFrame buf with
    | none => rw [drainFrames_none h]; exact h
    | some p =>
      obtain ⟨f, r⟩ := p
      rw [drainFrames_some h]
      have hlen := findFrame_length buf f r h
      exact ih r (by omega)

/-- Draining a buffer extended by further bytes first yields the frames of
the original buffer, then continues from the retained remainder. -/
theorem drainFrames_append (z w : List Char) :
    drainFrames (z ++ w) =
      ((drainFrames z).1 ++ (drainFrames ((drainFrames z).2 ++ w)).1,
       (drainFrames ((drainFrames z).2 ++ w)).2) := by
  suffices H : ∀ n : ℕ, ∀ z : List Char, z.length ≤ n →
      drainFrames (z ++ w) =
        ((drainFrames z).1 ++ (drainFrames ((drainFrames z).2 ++ w)).1,
         (drainFrames ((drainFrames z).2 ++ w)).2) from H z.length z le_rfl
  intro n
  induction n with
  | zero =>
    intro z hz
    have : z = [] := List.length_eq_zero.mp (Nat.le_zero.mp hz)
    subst this
    have h0 : findFrame ([] : List Char) = none := rfl
    rw [drainFrames_none h0]
    simp
  | succ n ih =>
    intro z hz
    cases h : findFrame z with
    | none =>
      rw [drainFrames_none h]
      simp
    | some p =>
      obtain ⟨f, r⟩ := p
      rw [drainFrames_some h]
      rw [drainFrames_some (findFrame_append_of_some z f r w h)]
      have hlen := findFrame_length z f r h
      have hr := ih r (by omega)
      rw [hr]
      simp

/-- Encoding of a frame list on the wire: each frame followed by CR LF. -/
def encodeFrames (fs : List (List Char)) : List Char :=
  (fs.map (fun f => f ++ CRLF)).flatten

/-- Draining a well-formed encoding recovers exactly the frames. -/
theorem drainFrames_encode (fs : List (List Char))
    (hf : ∀ f ∈ fs, findFrame f = none) :
    drainFrames (encodeFrames fs) = (fs, []) := by
  induction fs with
  | nil => exact drainFrames_none (by simp [encodeFrames, findFrame])
  | cons f fs ih =>
    have hsplit : findFrame (encodeFrames (f :: fs)) = some (f, encodeFrames fs) := by
      have henc : encodeFrames (f :: fs) = f ++ CRLF ++ encodeFrames fs := by
        simp [encodeFrames]
      rw [henc]
      exact findFrame_of_clean f _ (hf f (by simp))
    rw [drainFrames_some hsplit]
    rw [ih (fun g hg => hf g (by simp [hg]))]

/-- Model of feeding the data handler a sequence of chunks: each chunk is
appended to the buffer, which is then drained; the yielded frames of all
ingestions are concatenated in order. -/
def runChunks : List Char → List (List Char) → List (List Char) × List Char
  | buf, [] => ([], buf)
  | buf, c :: cs =>
    let p := drainFrames (buf ++ c)
    let q := runChunks p.2 cs
    (p.1 ++ q.1, q.2)

/-- Chunked ingestion is equivalent to draining the whole concatenation,
provided the starting buffer holds no terminator. -/
theorem runChunks_eq_drain (chunks : List (List Char)) (buf : List Char)
    (h : findFrame buf = none) :
    runChunks buf chunks = drainFrames (buf ++ chunks.flatten) := by
  induction chunks generalizing buf with
  | nil => simp [runChunks, drainFrames_none h]
  | cons c cs ih =>
    simp only [runChunks]
    rw [ih _ (findFrame_drainFrames (buf ++ c))]
    have hflat : buf ++ (c :: cs).flatten = (buf ++ c) ++ cs.flatten := by simp
    rw [hflat, drainFrames_append (buf ++ c) cs.flatten]

/-! ## Configuration constants (bot.js lines 45-64)

In the source these are top-level constants.  The three mode switches are
gathered in a `Config` so that claims about the non-test or live modes can
be stated; `sourceConfig` is the configuration written in the file. -/

def fixedBalance : ℚ := 100
def simulationBalance : ℚ := 100
def betPercentage : ℚ := 10
def testBetOdds : ℚ := 3 / 2
def testBetOddsTolerance : ℚ := 1
def maxMarketsPerSubscription : ℕ := 10
def commissionKeep : ℚ := 95 / 100

structure Config where
  testBetEnabled : Bool
  enableSimulation : Bool
  useImpossibleOdds : Bool
deriving DecidableEq

def sourceConfig : Config := ⟨true, true, true⟩

/-! ## Data model

`MarketState` embeds one entry of `gameHistoricalData`; the inbound
message shapes embed the stream protocol objects the handler reads.
JS `null`/`undefined` fields become `Option`. -/

structure Bet where
  selectionId : ℕ
  size : ℚ
  price : ℚ
deriving DecidableEq

inductive MStatus
  | UPCOMING
  | IN_PLAY
  | ENDED
deriving DecidableEq

structure SetScore where
  homeScore : Option ℕ
  awayScore : Option ℕ
  completed : Bool
deriving DecidableEq

structure MarketState where
  isOpen : Bool
  selectionIdA : ℕ
  selectionIdB : ℕ
  pA : Option ℚ
  pB : Option ℚ
  sets : List SetScore
  hasFirstSetEnded : Bool
  status : MStatus
  bet : Option Bet
deriving DecidableEq

/-- One `rc` runner entry; `batb` is the best-available-to-back price
`runner.batb?.[0]?.[0]`, with `none` modelling a missing or non-numeric
value (including NaN). -/
structure RunnerDelta where
  id : ℕ
  batb : Option ℚ
deriving DecidableEq

/-- One `marketDefinition.runners` entry; `isWinner` embeds
`r.status === "WINNER"`. -/
structure RunnerDef where
  id : ℕ
  isWinner : Bool
deriving DecidableEq

/-- `marketDefinition.score`; `sets` is `score.sets`, which the code
defaults to `[]` when absent. -/
structure ScoreData where
  sets : Option (List SetScore)
deriving DecidableEq

inductive MktStatus
  | OPEN
  | SUSPENDED
  | CLOSED
deriving DecidableEq

structure MarketDef where
  inPlay : Bool
  status : Option MktStatus
  score : Option ScoreData
  runners : Option (List RunnerDef)
deriving DecidableEq

structure MarketChange where
  id : ℕ
  marketDefinition : Option MarketDef
  rc : Option (List RunnerDelta)
deriving DecidableEq

/-- One `oc.or` order report; `execComplete` embeds
`order.status === "EXECUTION_COMPLETE"`. -/
structure OrderReport where
  execComplete : Bool
  profit : Option ℚ
  betId : ℕ
deriving DecidableEq

/-- One `message.oc` entry; `reports` embeds the `or` array. -/
structure OrderChange where
  marketId : ℕ
  reports : Option (List OrderReport)
deriving DecidableEq

/-- Value stored in `orderIds`: the simulated id string `sim_<marketId>`
or a live bet id returned by the REST gateway. -/
inductive OrdId
  | simulated (marketId : ℕ)
  | live (betId : ℕ)
deriving DecidableEq

/-- One record appended to the per-event ndjson log. -/
inductive LogEntry
  | betPlaced (marketId selectionId : ℕ) (size price : ℚ) (isTestBet : Bool)
  | betEdited (betId : ℕ) (newSize newPrice : ℚ)
  | oddsUpdate (pA pB : Option ℚ)
  | marketExcluded (marketId : ℕ)
  | betOutcome (marketId selectionId : ℕ) (win : Bool) (pnl : ℚ)
  | marketClosed (outcomeWin : Option Bool) (pnl : ℚ)
deriving DecidableEq

/-- The process-wide mutable state of the bot (bot.js lines 66-82). -/
structure BotState where
  store : List (ℕ × MarketState)
  hasOpenBet : Bool
  orderIds : List (ℕ × OrdId)
  simBalance : ℚ
  multiplier : ℕ
  isSubscribed : Bool
  isAuthenticated : Bool
  hasPlacedBet : Bool
  testBetPlaced : Bool
  buffer : String
  wsPresent : Bool
  log : List LogEntry
deriving DecidableEq

/-! ### Association-list operations for the JS object maps -/

def alookup {α : Type} (s : List (ℕ × α)) (id : ℕ) : Option α :=
  (s.find? (fun p => p.1 == id)).map (fun p => p.2)

/-- JS object assignment: overwrite the value at the key, preserving
insertion order, or append the key when absent. -/
def aset {α : Type} (s : List (ℕ × α)) (id : ℕ) (v : α) : List (ℕ × α) :=
  if (s.find? (fun p => p.1 == id)).isSome
  then s.map (fun p => if p.1 == id then (id, v) else p)
  else s ++ [(id, v)]

def adel {α : Type} (s : List (ℕ × α)) (id : ℕ) : List (ℕ × α) :=
  s.filter (fun p => !(p.1 == id))

/-! ## Staking engine -/

/-- Stake sizing at the top of `placeBet` (bot.js 222-229). -/
def betSizeOf (cfg : Config) (s : BotState) : ℚ :=
  if cfg.enableSimulation then betPercentage / 100 * s.simBalance * (s.multiplier : ℚ)
  else if cfg.useImpossibleOdds then 2
  else betPercentage / 100 * fixedBalance * (s.multiplier : ℚ)

/-- `placeBet` (bot.js 221-328) followed, in the live aggressive-fill mode, by
`editBet` (bot.js 331-373).  The caller holds the looked-up market record, so
the function returns the globals and the mutated record.  In live mode the
real code suspends at each fetch; this model applies the successful
completion of the calls as one step, with `newBetId` standing for the bet id
the gateway returns. -/
def placeBet (cfg : Config) (newBetId : ℕ) (s : BotState) (game : MarketState)
    (marketId selectionId : ℕ) (price : ℚ) (isTestBet : Bool) :
    BotState × MarketState :=
  let betSize := betSizeOf cfg s
  if cfg.enableSimulation then
    ({ s with
        orderIds := aset s.orderIds marketId (OrdId.simulated marketId),
        simBalance := s.simBalance - betSize,
        log := s.log ++ [LogEntry.betPlaced marketId selectionId betSize price isTestBet],
        hasPlacedBet := true,
        hasOpenBet := true,
        testBetPlaced := if isTestBet then true else s.testBetPlaced },
     { game with bet := some ⟨selectionId, betSize, price⟩ })
  else
    let betPrice := if cfg.useImpossibleOdds then 1000 else price
    let s1 := { s with
        orderIds := aset s.orderIds marketId (OrdId.live newBetId),
        log := s.log ++ [LogEntry.betPlaced marketId selectionId betSize betPrice isTestBet] }
    let game1 : MarketState := { game with bet := some ⟨selectionId, betSize, betPrice⟩ }
    if cfg.useImpossibleOdds then
      ({ s1 with
          log := s1.log ++ [LogEntry.betEdited newBetId (1 / 20) price],
          hasOpenBet := true,
          hasPlacedBet := true,
          testBetPlaced := if isTestBet then true else s1.testBetPlaced },
       { game1 with bet := some ⟨selectionId, 1 / 20, price⟩ })
    else
      ({ s1 with
          hasOpenBet := true,
          hasPlacedBet := true,
          testBetPlaced := if isTestBet then true else s1.testBetPlaced },
       game1)

/-! ## Stream message router -/

/-- Odds update for one runner delta (bot.js 473-505): a missing,
non-numeric, zero or ≤ 1 price is logged and ignored; a usable price
overwrites the field matched by selection id. -/
def updOdds (game : MarketState) (r : RunnerDelta) : MarketState :=
  match r.batb with
  | none => game
  | some odds =>
    if odds = 0 then game
    else if odds ≤ 1 then game
    else if r.id == game.selectionIdA then { game with pA := some odds }
    else if r.id == game.selectionIdB then { game with pB := some odds }
    else game

/-- The player-B half of the test-bet trigger (bot.js 518-528). -/
def testBetB (cfg : Config) (newBetId : ℕ) (s : BotState) (game : MarketState)
    (marketId : ℕ) : BotState × MarketState :=
  match game.pB with
  | some b =>
    if b ≠ 0 ∧ |b - testBetOdds| ≤ testBetOddsTolerance then
      placeBet cfg newBetId s game marketId game.selectionIdB b true
    else (s, game)
  | none => (s, game)

/-- Test-bet trigger (bot.js 508-529): in test mode, in play, with no test
bet yet this cycle and no open bet, back whichever side's odds are within
the tolerance of the target (A checked before B). -/
def testBetStep (cfg : Config) (newBetId : ℕ) (s : BotState) (game : MarketState)
    (marketId : ℕ) (isInPlay : Bool) : BotState × MarketState :=
  if cfg.testBetEnabled = true ∧ isInPlay = true ∧
     s.testBetPlaced = false ∧ s.hasOpenBet = false then
    match game.pA with
    | some a =>
      if a ≠ 0 ∧ |a - testBetOdds| ≤ testBetOddsTolerance then
        placeBet cfg newBetId s game marketId game.selectionIdA a true
      else testBetB cfg newBetId s game marketId
    | none => testBetB cfg newBetId s game marketId
  else (s, game)

/-- The `mc.rc && isInPlay` block (bot.js 465-547): per-runner odds update,
test-bet trigger, and the odds_update log record (which re-validates the
stored values, logging `null` for anything not > 1). -/
def rcBlock (cfg : Config) (newBetId : ℕ) (s : BotState) (game : MarketState)
    (marketId : ℕ) (isInPlay : Bool) (rc : Option (List RunnerDelta)) :
    BotState × MarketState :=
  if rc.isSome = true ∧ isInPlay = true then
    let game1 := (rc.getD []).foldl updOdds game
    let p := testBetStep cfg newBetId s game1 marketId isInPlay
    let pAlog := p.2.pA.bind (fun a => if 1 < a then some a else none)
    let pBlog := p.2.pB.bind (fun b => if 1 < b then some b else none)
    ({ p.1 with log := p.1.log ++ [LogEntry.oddsUpdate pAlog pBlog] }, p.2)
  else (s, game)

/-- The score block (bot.js 549-581): in non-test mode, store the reported
sets; when the first set completes for the first time, latch the one-shot
flag and evaluate the staking condition against the final set score. -/
def scoreBlock (cfg : Config) (newBetId : ℕ) (s : BotState) (game : MarketState)
    (marketId : ℕ) (mdef : Option MarketDef) : BotState × MarketState :=
  match mdef.bind (fun md => md.score) with
  | none => (s, game)
  | some sc =>
    if cfg.testBetEnabled = false then
      let game1 := { game with sets := sc.sets.getD [] }
      if 1 ≤ game1.sets.length ∧ game1.hasFirstSetEnded = false ∧
         (game1.sets.headD ⟨none, none, false⟩).completed = true then
        let game2 := { game1 with hasFirstSetEnded := true }
        let set1 := game1.sets.headD ⟨none, none, false⟩
        let homeScore : ℤ := (set1.homeScore.getD 0 : ℕ)
        let awayScore : ℤ := (set1.awayScore.getD 0 : ℕ)
        let difference := (homeScore - awayScore).natAbs
        let underdogOdds := if awayScore < homeScore then game2.pB else game2.pA
        if difference ≤ 2 ∧ 2 ≤ underdogOdds.getD 0 then
          if s.hasOpenBet = false then
            placeBet cfg newBetId s game2 marketId
              (if awayScore < homeScore then game2.selectionIdB else game2.selectionIdA)
              (underdogOdds.getD 0) false
          else (s, game2)
        else (s, game2)
      else (s, game1)
    else (s, game)

/-- The settlement part of the market-closed branch (bot.js 586-619): the
updated globals plus the `outcome` and `pnl` locals the branch logs. -/
def settleClosed (cfg : Config) (s : BotState) (game : MarketState)
    (marketId : ℕ) (mdef : Option MarketDef) : BotState × Option Bool × ℚ :=
  match game.bet, mdef.bind (fun md => md.runners) with
  | some bet, some runners =>
    match runners.find? (fun r => r.isWinner) with
    | some w =>
      if w.id == bet.selectionId then
        let pnl := (bet.price - 1) * bet.size * commissionKeep
        ({ s with
            simBalance := if cfg.enableSimulation
                          then s.simBalance + (pnl + bet.size)
                          else s.simBalance,
            multiplier := 1,
            log := s.log ++ [LogEntry.betOutcome marketId bet.selectionId true pnl] },
         some true, pnl)
      else
        let pnl := -bet.size
        ({ s with
            simBalance := if cfg.enableSimulation
                          then s.simBalance - bet.size
                          else s.simBalance,
            multiplier := s.multiplier * 2,
            log := s.log ++ [LogEntry.betOutcome marketId bet.selectionId false pnl] },
         some false, pnl)
    | none => (s, none, 0)
  | _, _ => (s, none, 0)

/-- The market-closed / status block (bot.js 583-635): on CLOSED, settle any
recorded bet against the runner marked winner, log the outcome, delete the
market and its order id, and clear both process-wide bet flags; otherwise
write the (possibly mutated) record back with its in-play status. -/
def closedBlock (cfg : Config) (s : BotState) (game : MarketState)
    (marketId : ℕ) (mdef : Option MarketDef) : BotState :=
  if (mdef.bind (fun md => md.status)) = some MktStatus.CLOSED then
    let settle := settleClosed cfg s game marketId mdef
    { settle.1 with
        log := settle.1.log ++ [LogEntry.marketClosed settle.2.1 settle.2.2],
        orderIds := adel settle.1.orderIds marketId,
        store := adel settle.1.store marketId,
        hasOpenBet := false,
        testBetPlaced := false }
  else
    let game1 := if (mdef.map (fun md => md.inPlay)).getD false = true
                 then { game with status := MStatus.IN_PLAY }
                 else { game with status := MStatus.UPCOMING }
    { s with store := aset s.store marketId game1 }

/-- Processing of one `mc` market-change delta (bot.js 439-636).  `newBetId`
stands for the bet id the gateway would return for a live placement
triggered while handling this delta. -/
def processMC (cfg : Config) (newBetId : ℕ) (s : BotState) (mc : MarketChange) :
    BotState :=
  match alookup s.store mc.id with
  | none => s
  | some game =>
    if game.isOpen = false then s
    else
      let isInPlay := (mc.marketDefinition.map (fun md => md.inPlay)).getD false
      let hasScore := (mc.marketDefinition.bind (fun md => md.score)).isSome
      if cfg.testBetEnabled = false ∧ isInPlay = true ∧ hasScore = false then
        { s with
            store := aset s.store mc.id { game with isOpen := false },
            log := s.log ++ [LogEntry.marketExcluded mc.id] }
      else
        let p1 := rcBlock cfg newBetId s game mc.id isInPlay mc.rc
        let p2 := scoreBlock cfg newBetId p1.1 p1.2 mc.id mc.marketDefinition
        closedBlock cfg p2.1 p2.2 mc.id mc.marketDefinition

/-- Settlement of one order report in the `ocm` branch (bot.js 642-668):
an execution-complete report with a defined profit matching the tracked
live order id applies the win/lose multiplier update and clears the
outstanding-bet flags.  The source reads `game.bet.selectionId` with no
guard while building the log record (bot.js 659): when the market record
holds no bet this throws a TypeError before the multiplier update at line
664 and before any mutation for this report; `none` models that throw. -/
def settleOrder (s : BotState) (marketId : ℕ) (game : MarketState)
    (o : OrderReport) : Option BotState :=
  if o.execComplete = true ∧ o.profit.isSome = true ∧
     alookup s.orderIds marketId = some (OrdId.live o.betId) then
    match game.bet with
    | none => none
    | some bet =>
      let pnl := o.profit.getD 0
      let win : Bool := decide (0 < pnl)
      some { s with
          log := s.log ++ [LogEntry.betOutcome marketId bet.selectionId win pnl],
          multiplier := if win then 1 else s.multiplier * 2,
          hasOpenBet := false,
          testBetPlaced := false,
          orderIds := adel s.orderIds marketId }
  else some s

/-- The `oc.or?.forEach` loop: a report's TypeError aborts the remaining
reports while the mutations of the earlier reports persist; the Bool
records whether the loop threw. -/
def settleReports (marketId : ℕ) (game : MarketState) :
    BotState → List OrderReport → BotState × Bool
  | s, [] => (s, false)
  | s, o :: os =>
    match settleOrder s marketId game o with
    | none => (s, true)
    | some s1 => settleReports marketId game s1 os

/-- Processing of one `oc` order-change entry (bot.js 638-671); the guard on
the tracked market, tracked order id and non-simulated mode is evaluated
once, before the loop over order reports, as in the source. -/
def processOC (cfg : Config) (s : BotState) (oc : OrderChange) : BotState × Bool :=
  match alookup s.store oc.marketId, alookup s.orderIds oc.marketId with
  | some game, some _ =>
    if cfg.enableSimulation = true then (s, false)
    else settleReports oc.marketId game s (oc.reports.getD [])
  | _, _ => (s, false)

/-- The `message.oc?.forEach` loop: a TypeError thrown by one entry
propagates out of `handleStreamMessage` (the data handler catches it at
bot.js 407-415 and only logs), aborting the rest of the message. -/
def processOCs (cfg : Config) : BotState → List OrderChange → BotState
  | s, [] => s
  | s, oc :: ocs =>
    match processOC cfg s oc with
    | (s1, true) => s1
    | (s1, false) => processOCs cfg s1 ocs

/-! ## Subscription manager -/

inductive OutMsg
  | marketSub (id : ℕ) (marketIds : List ℕ)
  | orderSub (id : ℕ)
deriving DecidableEq

/-- The `for (let i = 0; ...; i += maxMarketsPerSubscription)` slicing of the
open market ids into batches of at most 10. -/
def chunksOf10 : List ℕ → List (List ℕ)
  | [] => []
  | x :: xs => (x :: xs.take 9) :: chunksOf10 (xs.drop 9)
termination_by l => l.length
decreasing_by
  simp only [List.length_cons, List.length_drop]
  omega

/-- Batch messages with sequence ids `1 + Math.floor(i / 10)`, i.e. counting
up from `k` across the batches. -/
def subMsgs : ℕ → List (List ℕ) → List OutMsg
  | _, [] => []
  | k, b :: bs => OutMsg.marketSub k b :: subMsgs (k + 1) bs

/-- `subscribeToOpenMarkets` (bot.js 181-218): returns the protocol messages
written to the connection together with the updated state. -/
def subscribeToOpenMarkets (s : BotState) : List OutMsg × BotState :=
  if s.isSubscribed = true then ([], s)
  else
    let openMarketIds := (s.store.filter (fun p => p.2.isOpen)).map (fun p => p.1)
    if s.wsPresent = false ∨ openMarketIds = [] then ([], s)
    else
      (subMsgs 1 (chunksOf10 openMarketIds) ++ [OutMsg.orderSub 999],
       { s with isSubscribed := true })

/-! ## Connection manager -/

/-- `connectStreamAPI` (bot.js 376-428), state effect of entering a new
connection: destroy and replace the transport handle and reset the two
connection-scoped flags.  The global `buffer` is not touched by this
function in the source. -/
def connectStreamAPI (s : BotState) : BotState :=
  { s with wsPresent := true, isSubscribed := false, isAuthenticated := false }

/-! ## Whole-system step relation -/

/-- One event delivered to the process.  Each market-change delta is paired
with the bet id the gateway would return for a live placement triggered by
it (ignored in simulation mode).  `connLost` is the state effect shared by
the error and close handlers; the reconnect they schedule is a later
`connect` input. -/
inductive Input
  | statusSuccess
  | mcm (mc : List (MarketChange × ℕ))
  | ocm (oc : List OrderChange)
  | connLost
  | connect

/-- `handleStreamMessage` (bot.js 431-673) plus the connection events. -/
def stepMsg (cfg : Config) (s : BotState) : Input → BotState
  | Input.statusSuccess => (subscribeToOpenMarkets { s with isAuthenticated := true }).2
  | Input.mcm mcs => mcs.foldl (fun t p => processMC cfg p.2 t p.1) s
  | Input.ocm ocs => processOCs cfg s ocs
  | Input.connLost => { s with isSubscribed := false }
  | Input.connect => connectStreamAPI s

/-- One market summary of the initial `listMarketCatalogue` fetch, as used
by the tracking loop (bot.js 696-723). -/
structure InitMarket where
  marketId : ℕ
  selectionIdA : ℕ
  selectionIdB : ℕ
  upcoming : Bool
deriving DecidableEq

def initMarketState (m : InitMarket) : MarketState :=
  { isOpen := true, selectionIdA := m.selectionIdA, selectionIdB := m.selectionIdB,
    pA := none, pB := none, sets := [], hasFirstSetEnded := false,
    status := if m.upcoming then MStatus.UPCOMING else MStatus.IN_PLAY,
    bet := none }

def initStore (ms : List InitMarket) : List (ℕ × MarketState) :=
  ms.foldl (fun st m =>
    if (alookup st m.marketId).isSome = true then st
    else st ++ [(m.marketId, initMarketState m)]) []

/-- Process state right after startup (globals at bot.js 66-82 plus the
initial tracking loop), with the first connection established. -/
def initState (ms : List InitMarket) : BotState :=
  { store := initStore ms, hasOpenBet := false, orderIds := [],
    simBalance := simulationBalance, multiplier := 1,
    isSubscribed := false, isAuthenticated := false,
    hasPlacedBet := false, testBetPlaced := false,
    buffer := "", wsPresent := true, log := [] }

def runBotInputs (cfg : Config) (ms : List InitMarket) (inputs : List Input) :
    BotState :=
  inputs.foldl (stepMsg cfg) (initState ms)

/-- A state the process can be in after some sequence of delivered events. -/
def Reachable (cfg : Config) (s : BotState) : Prop :=
  ∃ ms inputs, s = runBotInputs cfg ms inputs

/-! ## Association-list lemmas -/

theorem alookup_adel_self {α : Type} (s : List (ℕ × α)) (id : ℕ) :
    alookup (adel s id) id = none := by
  induction s with
  | nil => rfl
  | cons p t ih =>
    by_cases h : p.1 = id
    · simpa [adel, List.filter_cons, h] using ih
    · have hb : (p.1 == id) = false := by simp [h]
      simp only [adel, List.filter_cons, hb, Bool.not_false, if_pos]
      simp only [alookup, List.find?_cons, hb]
      exact ih

theorem alookup_adel_ne {α : Type} (s : List (ℕ × α)) (id j : ℕ) (h : j ≠ id) :
    alookup (adel s id) j = alookup s j := by
  induction s with
  | nil => rfl
  | cons p t ih =>
    by_cases hp : p.1 = id
    · have hbj : (p.1 == j) = false := by simp [hp, Ne.symm h]
      simp only [adel, List.filter_cons, hp, beq_self_eq_true, Bool.not_true,
        if_neg, Bool.false_eq_true, not_false_eq_true]
      simp only [alookup, List.find?_cons, hbj] at ih ⊢
      simpa [adel] using ih
    · have hb : (p.1 == id) = false := by simp [hp]
      simp only [adel, List.filter_cons, hb, Bool.not_false, if_pos]
      by_cases hj : p.1 = j
      · simp [alookup, List.find?_cons, hj]
      · have hbj : (p.1 == j) = false := by simp [hj]
        simp only [alookup, List.find?_cons, hbj]
        simpa [adel, alookup] using ih

theorem alookup_aset_self {α : Type} (s : List (ℕ × α)) (id : ℕ) (v : α) :
    alookup (aset s id v) id = some v := by
  unfold aset
  by_cases hf : (List.find? (fun p => p.1 == id) s).isSome
  · rw [if_pos hf]
    induction s with
    | nil => simp at hf
    | cons p t ih =>
      by_cases h : p.1 = id
      · simp [alookup, List.find?_cons, h]
      · have hb : (p.1 == id) = false := by simp [h]
        simp only [List.map_cons, hb, Bool.false_eq_true, if_neg, not_false_eq_true]
        simp only [alookup, List.find?_cons, hb]
        simp only [List.find?_cons, hb] at hf
        exact ih hf
  · rw [if_neg hf]
    induction s with
    | nil => simp [alookup, List.find?_cons]
    | cons p t ih =>
      have hb : (p.1 == id) = false := by
        cases hpb : (p.1 == id) with
        | false => rfl
        | true => exfalso; apply hf; simp [List.find?_cons, hpb]
      simp only [List.cons_append]
      simp only [alookup, List.find?_cons, hb] at ih ⊢
      apply ih
      intro hsome
      apply hf
      simp only [List.find?_cons, hb]
      exact hsome

theorem alookup_map_update_ne {α : Type} (s : List (ℕ × α)) (id j : ℕ) (v : α)
    (h : j ≠ id) :
    alookup (s.map (fun p => if p.1 == id then (id, v) else p)) j = alookup s j := by
  induction s with
  | nil => rfl
  | cons p t ih =>
    by_cases hp : p.1 = id
    · have hb : (p.1 == id) = true := by simp [hp]
      have hbj : (p.1 == j) = false := by simp [hp, Ne.symm h]
      have hbj2 : (id == j) = false := by simp [Ne.symm h]
      simp only [List.map_cons, hb, if_pos]
      simp only [alookup, List.find?_cons, hbj, hbj2]
      exact ih
    · have hb : (p.1 == id) = false := by simp [hp]
      simp only [List.map_cons, hb, Bool.false_eq_true, if_neg, not_false_eq_true]
      by_cases hj : p.1 = j
      · simp [alookup, List.find?_cons, hj]
      · have hbj : (p.1 == j) = false := by simp [hj]
        simp only [alookup, List.find?_cons, hbj]
        exact ih

theorem alookup_append_single_ne {α : Type} (s : List (ℕ × α)) (id j : ℕ) (v : α)
    (h : j ≠ id) :
    alookup (s ++ [(id, v)]) j = alookup s j := by
  induction s with
  | nil =>
    have hb : (id == j) = false := by simp [Ne.symm h]
    simp [alookup, List.find?_cons, hb]
  | cons p t ih =>
    by_cases hj : p.1 = j
    · simp [alookup, List.find?_cons, hj]
    · have hbj : (p.1 == j) = false := by simp [hj]
      simp only [List.cons_append]
      simp only [alookup, List.find?_cons, hbj] at ih ⊢
      exact ih

theorem alookup_aset_ne {α : Type} (s : List (ℕ × α)) (id j : ℕ) (v : α)
    (h : j ≠ id) : alookup (aset s id v) j = alookup s j := by
  unfold aset
  split
  · exact alookup_map_update_ne s id j v h
  · exact alookup_append_single_ne s id j v h

/-! ## Component-effect lemmas for the handler blocks -/

theorem placeBet_effects (cfg : Config) (nbi : ℕ) (s : BotState) (game : MarketState)
    (marketId selId : ℕ) (price : ℚ) (isTest : Bool) :
    (placeBet cfg nbi s game marketId selId price isTest).1.store = s.store ∧
    (placeBet cfg nbi s game marketId selId price isTest).1.multiplier = s.multiplier ∧
    (placeBet cfg nbi s game marketId selId price isTest).2.pA = game.pA ∧
    (placeBet cfg nbi s game marketId selId price isTest).2.pB = game.pB := by
  unfold placeBet
  split
  · exact ⟨rfl, rfl, rfl, rfl⟩
  · split
    · exact ⟨rfl, rfl, rfl, rfl⟩
    · exact ⟨rfl, rfl, rfl, rfl⟩

theorem testBetB_effects (cfg : Config) (nbi : ℕ) (s : BotState) (game : MarketState)
    (marketId : ℕ) :
    (testBetB cfg nbi s game marketId).1.store = s.store ∧
    (testBetB cfg nbi s game marketId).1.multiplier = s.multiplier ∧
    (testBetB cfg nbi s game marketId).2.pA = game.pA ∧
    (testBetB cfg nbi s game marketId).2.pB = game.pB := by
  unfold testBetB
  split
  · split
    · exact placeBet_effects cfg nbi s game marketId game.selectionIdB _ true
    · exact ⟨rfl, rfl, rfl, rfl⟩
  · exact ⟨rfl, rfl, rfl, rfl⟩

theorem testBetStep_effects (cfg : Config) (nbi : ℕ) (s : BotState) (game : MarketState)
    (marketId : ℕ) (isInPlay : Bool) :
    (testBetStep cfg nbi s game marketId isInPlay).1.store = s.store ∧
    (testBetStep cfg nbi s game marketId isInPlay).1.multiplier = s.multiplier ∧
    (testBetStep cfg nbi s game marketId isInPlay).2.pA = game.pA ∧
    (testBetStep cfg nbi s game marketId isInPlay).2.pB = game.pB := by
  unfold testBetStep
  split
  · split
    · split
      · exact placeBet_effects cfg nbi s game marketId game.selectionIdA _ true
      · exact testBetB_effects cfg nbi s game marketId
    · exact testBetB_effects cfg nbi s game marketId
  · exact ⟨rfl, rfl, rfl, rfl⟩

theorem rcBlock_effects (cfg : Config) (nbi : ℕ) (s : BotState) (game : MarketState)
    (marketId : ℕ) (isInPlay : Bool) (rc : Option (List RunnerDelta)) :
    (rcBlock cfg nbi s game marketId isInPlay rc).1.store = s.store ∧
    (rcBlock cfg nbi s game marketId isInPlay rc).1.multiplier = s.multiplier := by
  unfold rcBlock
  split
  · have h := testBetStep_effects cfg nbi s ((rc.getD []).foldl updOdds game) marketId isInPlay
    exact ⟨h.1, h.2.1⟩
  · exact ⟨rfl, rfl⟩

theorem scoreBlock_effects (cfg : Config) (nbi : ℕ) (s : BotState) (game : MarketState)
    (marketId : ℕ) (mdef : Option MarketDef) :
    (scoreBlock cfg nbi s game marketId mdef).1.store = s.store ∧
    (scoreBlock cfg nbi s game marketId mdef).1.multiplier = s.multiplier ∧
    (scoreBlock cfg nbi s game marketId mdef).2.pA = game.pA ∧
    (scoreBlock cfg nbi s game marketId mdef).2.pB = game.pB := by
  unfold scoreBlock
  split
  · exact ⟨rfl, rfl, rfl, rfl⟩
  · split
    · dsimp only
      repeat' split
      all_goals first
        | exact placeBet_effects cfg nbi s _ marketId _ _ false
        | exact ⟨rfl, rfl, rfl, rfl⟩
    · exact ⟨rfl, rfl, rfl, rfl⟩

theorem settleClosed_effects (cfg : Config) (s : BotState) (game : MarketState)
    (marketId : ℕ) (mdef : Option MarketDef) :
    (settleClosed cfg s game marketId mdef).1.store = s.store ∧
    (settleClosed cfg s game marketId mdef).1.orderIds = s.orderIds ∧
    ((settleClosed cfg s game marketId mdef).1.multiplier = s.multiplier ∨
     (settleClosed cfg s game marketId mdef).1.multiplier = s.multiplier * 2 ∨
     (settleClosed cfg s game marketId mdef).1.multiplier = 1) := by
  unfold settleClosed
  repeat' split
  all_goals simp

theorem closedBlock_closed_effects (cfg : Config) (s : BotState) (game : MarketState)
    (marketId : ℕ) (mdef : Option MarketDef)
    (h : mdef.bind (fun md => md.status) = some MktStatus.CLOSED) :
    (closedBlock cfg s game marketId mdef).hasOpenBet = false ∧
    (closedBlock cfg s game marketId mdef).testBetPlaced = false ∧
    (closedBlock cfg s game marketId mdef).store = adel s.store marketId ∧
    (closedBlock cfg s game marketId mdef).orderIds = adel s.orderIds marketId ∧
    ((closedBlock cfg s game marketId mdef).multiplier = s.multiplier ∨
     (closedBlock cfg s game marketId mdef).multiplier = s.multiplier * 2 ∨
     (closedBlock cfg s game marketId mdef).multiplier = 1) := by
  have hs := settleClosed_effects cfg s game marketId mdef
  unfold closedBlock
  rw [if_pos h]
  dsimp only
  exact ⟨rfl, rfl, by rw [hs.1], by rw [hs.2.1], hs.2.2⟩

theorem closedBlock_open_effects (cfg : Config) (s : BotState) (game : MarketState)
    (marketId : ℕ) (mdef : Option MarketDef)
    (h : ¬ (mdef.bind (fun md => md.status) = some MktStatus.CLOSED)) :
    (closedBlock cfg s game marketId mdef).multiplier = s.multiplier ∧
    (closedBlock cfg s game marketId mdef).hasOpenBet = s.hasOpenBet ∧
    (closedBlock cfg s game marketId mdef).testBetPlaced = s.testBetPlaced ∧
    ∃ g1, (closedBlock cfg s game marketId mdef).store = aset s.store marketId g1 ∧
      g1.pA = game.pA ∧ g1.pB = game.pB ∧ g1.bet = game.bet := by
  unfold closedBlock
  rw [if_neg h]
  refine ⟨rfl, rfl, rfl, _, rfl, ?_, ?_, ?_⟩ <;> (split <;> rfl)

/-! ## Multiplier machinery -/

/-- The multiplier invariant: a power of two (hence at least 1). -/
def PowTwo (m : ℕ) : Prop := ∃ k : ℕ, m = 2 ^ k

theorem powTwo_of_trich {a b : ℕ} (h : PowTwo a)
    (ht : b = a ∨ b = a * 2 ∨ b = 1) : PowTwo b := by
  obtain ⟨k, rfl⟩ := h
  rcases ht with rfl | rfl | rfl
  · exact ⟨k, rfl⟩
  · exact ⟨k + 1, by ring⟩
  · exact ⟨0, rfl⟩

theorem processMC_multiplier (cfg : Config) (nbi : ℕ) (s : BotState)
    (mc : MarketChange) :
    (processMC cfg nbi s mc).multiplier = s.multiplier ∨
    (processMC cfg nbi s mc).multiplier = s.multiplier * 2 ∨
    (processMC cfg nbi s mc).multiplier = 1 := by
  unfold processMC
  split
  · left; rfl
  · split
    · left; rfl
    · dsimp only
      split
      · left; rfl
      · rename_i game hlk hopen hexc
        set ip := (mc.marketDefinition.map (fun md => md.inPlay)).getD false with hipdef
        set p1 := rcBlock cfg nbi s game mc.id ip mc.rc with hp1def
        set p2 := scoreBlock cfg nbi p1.1 p1.2 mc.id mc.marketDefinition with hp2def
        have h1 := (rcBlock_effects cfg nbi s game mc.id ip mc.rc).2
        have h2 := (scoreBlock_effects cfg nbi p1.1 p1.2 mc.id mc.marketDefinition).2.1
        rw [← hp1def] at h1
        rw [← hp2def] at h2
        by_cases hc : (mc.marketDefinition.bind (fun md => md.status)) = some MktStatus.CLOSED
        · have h3 := (closedBlock_closed_effects cfg p2.1 p2.2 mc.id mc.marketDefinition hc).2.2.2.2
          rw [h2, h1] at h3
          exact h3
        · have h3 := (closedBlock_open_effects cfg p2.1 p2.2 mc.id mc.marketDefinition hc).1
          rw [h3, h2, h1]
          left; rfl

/-- A market-change delta whose status is not CLOSED never touches the
multiplier: the only write to it in the `mc` path is inside the CLOSED
settlement branch (bot.js 595-603). -/
theorem processMC_multiplier_open (cfg : Config) (nbi : ℕ) (s : BotState)
    (mc : MarketChange)
    (hc : ¬ ((mc.marketDefinition.bind (fun md => md.status)) = some MktStatus.CLOSED)) :
    (processMC cfg nbi s mc).multiplier = s.multiplier := by
  unfold processMC
  split
  · rfl
  · split
    · rfl
    · dsimp only
      split
      · rfl
      · rename_i game hlk hopen hexc
        set ip := (mc.marketDefinition.map (fun md => md.inPlay)).getD false with hipdef
        set p1 := rcBlock cfg nbi s game mc.id ip mc.rc with hp1def
        set p2 := scoreBlock cfg nbi p1.1 p1.2 mc.id mc.marketDefinition with hp2def
        have h1 := (rcBlock_effects cfg nbi s game mc.id ip mc.rc).2
        have h2 := (scoreBlock_effects cfg nbi p1.1 p1.2 mc.id mc.marketDefinition).2.1
        rw [← hp1def] at h1
        rw [← hp2def] at h2
        have h3 := (closedBlock_open_effects cfg p2.1 p2.2 mc.id mc.marketDefinition hc).1
        rw [h3, h2, h1]

theorem settleOrder_effects (s : BotState) (marketId : ℕ) (game : MarketState)
    (o : OrderReport) :
    ∀ s', settleOrder s marketId game o = some s' →
      s'.store = s.store ∧
      (s'.multiplier = s.multiplier ∨
       s'.multiplier = s.multiplier * 2 ∨
       s'.multiplier = 1) := by
  intro s' h
  unfold settleOrder at h
  split at h
  · cases hbet : game.bet with
    | none =>
      rw [hbet] at h
      exact absurd h (by simp)
    | some bet =>
      rw [hbet] at h
      dsimp only at h
      injection h with h
      subst h
      refine ⟨rfl, ?_⟩
      by_cases hw : 0 < o.profit.getD 0
      · right; right; simp [hw]
      · right; left; simp [hw]
  · injection h with h
    subst h
    exact ⟨rfl, Or.inl rfl⟩

theorem settleReports_effects (marketId : ℕ) (game : MarketState) :
    ∀ (l : List OrderReport) (t : BotState),
      (settleReports marketId game t l).1.store = t.store ∧
      (PowTwo t.multiplier →
        PowTwo (settleReports marketId game t l).1.multiplier) := by
  intro l
  induction l with
  | nil => intro t; exact ⟨rfl, fun h => h⟩
  | cons o os ih =>
    intro t
    simp only [settleReports]
    cases h : settleOrder t marketId game o with
    | none => exact ⟨rfl, fun hp => hp⟩
    | some s1 =>
      have hso := settleOrder_effects t marketId game o s1 h
      have hrec := ih s1
      exact ⟨by rw [hrec.1, hso.1], fun hp => hrec.2 (powTwo_of_trich hp hso.2)⟩

theorem processOC_effects (cfg : Config) (s : BotState) (oc : OrderChange) :
    (processOC cfg s oc).1.store = s.store ∧
    (PowTwo s.multiplier → PowTwo (processOC cfg s oc).1.multiplier) := by
  unfold processOC
  split
  · split
    · exact ⟨rfl, fun h => h⟩
    · rename_i game _ _ _ _
      exact settleReports_effects oc.marketId game (oc.reports.getD []) s
  · exact ⟨rfl, fun h => h⟩

theorem subscribe_snd_effects (s : BotState) :
    (subscribeToOpenMarkets s).2.store = s.store ∧
    (subscribeToOpenMarkets s).2.multiplier = s.multiplier := by
  unfold subscribeToOpenMarkets
  split
  · exact ⟨rfl, rfl⟩
  · dsimp only
    split
    · exact ⟨rfl, rfl⟩
    · exact ⟨rfl, rfl⟩

/-! ## Odds validity machinery -/

/-- A stored odds field is unset or holds a finite value strictly above 1. -/
def ValidOddsField (o : Option ℚ) : Prop := ∀ q : ℚ, o = some q → 1 < q

def StoreOddsValid (st : List (ℕ × MarketState)) : Prop :=
  ∀ p ∈ st, ValidOddsField p.2.pA ∧ ValidOddsField p.2.pB

theorem validOddsField_none : ValidOddsField none := by
  intro q h
  cases h

theorem storeOddsValid_lookup {st : List (ℕ × MarketState)} {id : ℕ}
    {game : MarketState} (h : StoreOddsValid st)
    (hl : alookup st id = some game) :
    ValidOddsField game.pA ∧ ValidOddsField game.pB := by
  unfold alookup at hl
  rcases Option.map_eq_some'.mp hl with ⟨p, hp, hv⟩
  subst hv
  exact h p (List.mem_of_find?_eq_some hp)

theorem storeOddsValid_adel {st : List (ℕ × MarketState)} {id : ℕ}
    (h : StoreOddsValid st) : StoreOddsValid (adel st id) := by
  intro p hp
  exact h p (List.mem_of_mem_filter hp)

theorem storeOddsValid_aset {st : List (ℕ × MarketState)} {id : ℕ}
    {g : MarketState} (h : StoreOddsValid st)
    (hA : ValidOddsField g.pA) (hB : ValidOddsField g.pB) :
    StoreOddsValid (aset st id g) := by
  intro p hp
  unfold aset at hp
  split at hp
  · rcases List.mem_map.mp hp with ⟨q, hq, hv⟩
    by_cases hqid : (q.1 == id) = true
    · rw [if_pos hqid] at hv
      subst hv
      exact ⟨hA, hB⟩
    · rw [if_neg hqid] at hv
      subst hv
      exact h q hq
  · rcases List.mem_append.mp hp with hq | hq
    · exact h p hq
    · have : p = (id, g) := by simpa using hq
      subst this
      exact ⟨hA, hB⟩

theorem updOdds_valid {game : MarketState} (r : RunnerDelta)
    (h : ValidOddsField game.pA ∧ ValidOddsField game.pB) :
    ValidOddsField (updOdds game r).pA ∧ ValidOddsField (updOdds game r).pB := by
  unfold updOdds
  cases hb : r.batb with
  | none => exact h
  | some odds =>
    dsimp only
    by_cases h0 : odds = 0
    · rw [if_pos h0]; exact h
    · rw [if_neg h0]
      by_cases hle : odds ≤ 1
      · rw [if_pos hle]; exact h
      · rw [if_neg hle]
        have hodds : 1 < odds := not_le.mp hle
        by_cases hA : (r.id == game.selectionIdA) = true
        · rw [if_pos hA]
          refine ⟨?_, h.2⟩
          intro q hq
          exact Option.some_inj.mp hq ▸ hodds
        · rw [if_neg hA]
          by_cases hB : (r.id == game.selectionIdB) = true
          · rw [if_pos hB]
            refine ⟨h.1, ?_⟩
            intro q hq
            exact Option.some_inj.mp hq ▸ hodds
          · rw [if_neg hB]
            exact h

theorem foldl_updOdds_valid : ∀ (l : List RunnerDelta) (g : MarketState),
    (ValidOddsField g.pA ∧ ValidOddsField g.pB) →
    (ValidOddsField (l.foldl updOdds g).pA ∧ ValidOddsField (l.foldl updOdds g).pB) := by
  intro l
  induction l with
  | nil => intro g h; exact h
  | cons r l ih => intro g h; exact ih (updOdds g r) (updOdds_valid r h)

theorem rcBlock_valid (cfg : Config) (nbi : ℕ) (s : BotState) (game : MarketState)
    (marketId : ℕ) (isInPlay : Bool) (rc : Option (List RunnerDelta))
    (h : ValidOddsField game.pA ∧ ValidOddsField game.pB) :
    ValidOddsField (rcBlock cfg nbi s game marketId isInPlay rc).2.pA ∧
    ValidOddsField (rcBlock cfg nbi s game marketId isInPlay rc).2.pB := by
  unfold rcBlock
  split
  · have hfold := foldl_updOdds_valid (rc.getD []) game h
    have ht := testBetStep_effects cfg nbi s ((rc.getD []).foldl updOdds game) marketId isInPlay
    exact ⟨by rw [ht.2.2.1]; exact hfold.1, by rw [ht.2.2.2]; exact hfold.2⟩
  · exact h

theorem processMC_oddsValid (cfg : Config) (nbi : ℕ) (s : BotState)
    (mc : MarketChange) (h : StoreOddsValid s.store) :
    StoreOddsValid (processMC cfg nbi s mc).store := by
  unfold processMC
  split
  · exact h
  · rename_i game hlk
    have hg := storeOddsValid_lookup h hlk
    split
    · exact h
    · dsimp only
      split
      · exact storeOddsValid_aset h hg.1 hg.2
      · set ip := (mc.marketDefinition.map (fun md => md.inPlay)).getD false with hipdef
        set p1 := rcBlock cfg nbi s game mc.id ip mc.rc with hp1def
        set p2 := scoreBlock cfg nbi p1.1 p1.2 mc.id mc.marketDefinition with hp2def
        have h1 := rcBlock_valid cfg nbi s game mc.id ip mc.rc hg
        have hst1 := (rcBlock_effects cfg nbi s game mc.id ip mc.rc).1
        have h2 := scoreBlock_effects cfg nbi p1.1 p1.2 mc.id mc.marketDefinition
        rw [← hp1def] at h1 hst1
        rw [← hp2def] at h2
        by_cases hc : (mc.marketDefinition.bind (fun md => md.status)) = some MktStatus.CLOSED
        · have h3 := (closedBlock_closed_effects cfg p2.1 p2.2 mc.id mc.marketDefinition hc).2.2.1
          rw [h3, h2.1, hst1]
          exact storeOddsValid_adel h
        · obtain ⟨g1, hsg, hgA, hgB, _⟩ :=
            (closedBlock_open_effects cfg p2.1 p2.2 mc.id mc.marketDefinition hc).2.2.2
          rw [hsg, h2.1, hst1]
          refine storeOddsValid_aset h ?_ ?_
          · rw [hgA, h2.2.2.1]; exact h1.1
          · rw [hgB, h2.2.2.2]; exact h1.2

/-! ## Step-level and reachability preservation -/

theorem foldl_processMC_powTwo (cfg : Config) :
    ∀ (l : List (MarketChange × ℕ)) (s : BotState), PowTwo s.multiplier →
      PowTwo ((l.foldl (fun t p => processMC cfg p.2 t p.1) s).multiplier) := by
  intro l
  induction l with
  | nil => intro s h; exact h
  | cons p l ih =>
    intro s h
    simp only [List.foldl_cons]
    exact ih _ (powTwo_of_trich h (processMC_multiplier cfg p.2 s p.1))

theorem processOCs_powTwo (cfg : Config) :
    ∀ (l : List OrderChange) (s : BotState), PowTwo s.multiplier →
      PowTwo ((processOCs cfg s l).multiplier) := by
  intro l
  induction l with
  | nil => intro s h; exact h
  | cons oc l ih =>
    intro s h
    have he := (processOC_effects cfg s oc).2 h
    simp only [processOCs]
    cases hp : processOC cfg s oc with
    | mk s1 b =>
      rw [hp] at he
      cases b
      · exact ih s1 he
      · exact he

theorem stepMsg_powTwo (cfg : Config) (s : BotState) (i : Input)
    (h : PowTwo s.multiplier) : PowTwo (stepMsg cfg s i).multiplier := by
  cases i with
  | statusSuccess =>
    show PowTwo ((subscribeToOpenMarkets { s with isAuthenticated := true }).2.multiplier)
    rw [(subscribe_snd_effects { s with isAuthenticated := true }).2]
    exact h
  | mcm mcs => exact foldl_processMC_powTwo cfg mcs s h
  | ocm ocs => exact processOCs_powTwo cfg ocs s h
  | connLost => exact h
  | connect => exact h

theorem foldl_processMC_oddsValid (cfg : Config) :
    ∀ (l : List (MarketChange × ℕ)) (s : BotState), StoreOddsValid s.store →
      StoreOddsValid ((l.foldl (fun t p => processMC cfg p.2 t p.1) s).store) := by
  intro l
  induction l with
  | nil => intro s h; exact h
  | cons p l ih =>
    intro s h
    simp only [List.foldl_cons]
    exact ih _ (processMC_oddsValid cfg p.2 s p.1 h)

theorem processOCs_store (cfg : Config) :
    ∀ (l : List OrderChange) (s : BotState),
      (processOCs cfg s l).store = s.store := by
  intro l
  induction l with
  | nil => intro s; rfl
  | cons oc l ih =>
    intro s
    have he := (processOC_effects cfg s oc).1
    simp only [processOCs]
    cases hp : processOC cfg s oc with
    | mk s1 b =>
      rw [hp] at he
      cases b
      · rw [ih s1, he]
      · exact he

theorem stepMsg_oddsValid (cfg : Config) (s : BotState) (i : Input)
    (h : StoreOddsValid s.store) : StoreOddsValid (stepMsg cfg s i).store := by
  cases i with
  | statusSuccess =>
    show StoreOddsValid ((subscribeToOpenMarkets { s with isAuthenticated := true }).2.store)
    rw [(subscribe_snd_effects { s with isAuthenticated := true }).1]
    exact h
  | mcm mcs => exact foldl_processMC_oddsValid cfg mcs s h
  | ocm ocs =>
    show StoreOddsValid ((processOCs cfg s ocs).store)
    rw [processOCs_store cfg ocs s]
    exact h
  | connLost => exact h
  | connect => exact h

theorem initStore_oddsValid (ms : List InitMarket) : StoreOddsValid (initStore ms) := by
  suffices H : ∀ (l : List InitMarket) (acc : List (ℕ × MarketState)),
      StoreOddsValid acc →
      StoreOddsValid (l.foldl (fun st m =>
        if (alookup st m.marketId).isSome = true then st
        else st ++ [(m.marketId, initMarketState m)]) acc) from
    H ms [] (by intro p hp; cases hp)
  intro l
  induction l with
  | nil => intro acc h; exact h
  | cons m l ih =>
    intro acc h
    simp only [List.foldl_cons]
    apply ih
    split
    · exact h
    · intro p hp
      rcases List.mem_append.mp hp with hq | hq
      · exact h p hq
      · have hpv : p = (m.marketId, initMarketState m) := by simpa using hq
        subst hpv
        exact ⟨validOddsField_none, validOddsField_none⟩

theorem reachable_oddsValid {cfg : Config} {s : BotState} (h : Reachable cfg s) :
    StoreOddsValid s.store := by
  obtain ⟨ms, inputs, rfl⟩ := h
  unfold runBotInputs
  suffices H : ∀ (l : List Input) (t : BotState), StoreOddsValid t.store →
      StoreOddsValid ((l.foldl (stepMsg cfg) t).store) from
    H inputs (initState ms) (initStore_oddsValid ms)
  intro l
  induction l with
  | nil => intro t ht; exact ht
  | cons i l ih =>
    intro t ht
    simp only [List.foldl_cons]
    exact ih _ (stepMsg_oddsValid cfg t i ht)

theorem reachable_powTwo {cfg : Config} {s : BotState} (h : Reachable cfg s) :
    PowTwo s.multiplier := by
  obtain ⟨ms, inputs, rfl⟩ := h
  unfold runBotInputs
  suffices H : ∀ (l : List Input) (t : BotState), PowTwo t.multiplier →
      PowTwo ((l.foldl (stepMsg cfg) t).multiplier) from
    H inputs (initState ms) ⟨0, rfl⟩
  intro l
  induction l with
  | nil => intro t ht; exact ht
  | cons i l ih =>
    intro t ht
    simp only [List.foldl_cons]
    exact ih _ (stepMsg_powTwo cfg t i ht)

/-! ## Claim theorems -/

/-- C2: frame-decoder round trip.  For every split of an encoding of `N`
terminator-free frames into chunks — chunk boundaries anywhere, including
between the CR and the LF — feeding the chunks one at a time to the data
handler yields exactly those frames in order with an empty retained buffer;
and an ingestion in which the combined buffer holds no terminator yields no
frame and only grows the retained buffer. -/
theorem frame_decoder_roundtrip (frames chunks : List (List Char))
    (hf : ∀ f ∈ frames, findFrame f = none)
    (hc : chunks.flatten = encodeFrames frames) :
    runChunks [] chunks = (frames, []) ∧
    (∀ buf chunk : List Char, findFrame (buf ++ chunk) = none →
      drainFrames (buf ++ chunk) = ([], buf ++ chunk)) := by
  constructor
  · rw [runChunks_eq_drain chunks [] rfl]
    simp only [List.nil_append]
    rw [hc]
    exact drainFrames_encode frames hf
  · intro buf chunk h
    exact drainFrames_none h

/-- Witness for C2: the two frames `ab` and `c` re-chunked so that the
boundary falls between CR and LF. -/
theorem frame_decoder_roundtrip_witness :
    runChunks [] [['a', 'b', '\r'], ['\n', 'c', '\r', '\n']] =
      ([['a', 'b'], ['c']], []) ∧
    (∀ buf chunk : List Char, findFrame (buf ++ chunk) = none →
      drainFrames (buf ++ chunk) = ([], buf ++ chunk)) :=
  frame_decoder_roundtrip [['a', 'b'], ['c']]
    [['a', 'b', '\r'], ['\n', 'c', '\r', '\n']] (by decide) (by decide)

/-- C3 counterexample: invoking the connect operation on a state whose
retained buffer holds a partial frame keeps that buffer unchanged — the
prior connection's partial frame is not discarded. -/
theorem connect_keeps_buffer_cex :
    (connectStreamAPI { initState [] with buffer := "x" }).buffer = "x" ∧
    "x" ≠ "" := ⟨rfl, by decide⟩

/-- C3 (amended): every invocation of the connect operation resets the
authenticated and subscribed flags to false and installs a fresh transport
handle, but retains the partial-frame buffer of the prior connection
unchanged, so a frame can span two connections. -/
theorem connect_resets_flags_keeps_buffer (s : BotState) :
    (connectStreamAPI s).isAuthenticated = false ∧
    (connectStreamAPI s).isSubscribed = false ∧
    (connectStreamAPI s).wsPresent = true ∧
    (connectStreamAPI s).buffer = s.buffer :=
  ⟨rfl, rfl, rfl, rfl⟩

/-- C7: odds-validity invariant.  In every reachable state each stored odds
field is unset or strictly greater than 1; a runner delta with a missing,
non-numeric, zero or ≤ 1 best-back price leaves the record unchanged; a
valid price is written to `pA` or `pB` by selection-identifier match. -/
theorem odds_validity_invariant :
    (∀ cfg s, Reachable cfg s → ∀ p ∈ s.store,
        (∀ q : ℚ, p.2.pA = some q → 1 < q) ∧ (∀ q : ℚ, p.2.pB = some q → 1 < q)) ∧
    (∀ (game : MarketState) (r : RunnerDelta), r.batb = none → updOdds game r = game) ∧
    (∀ (game : MarketState) (r : RunnerDelta) (q : ℚ), r.batb = some q →
        (q = 0 ∨ q ≤ 1) → updOdds game r = game) ∧
    (∀ (game : MarketState) (r : RunnerDelta) (q : ℚ), r.batb = some q → 1 < q →
        r.id = game.selectionIdA → updOdds game r = { game with pA := some q }) ∧
    (∀ (game : MarketState) (r : RunnerDelta) (q : ℚ), r.batb = some q → 1 < q →
        r.id ≠ game.selectionIdA → r.id = game.selectionIdB →
        updOdds game r = { game with pB := some q }) := by
  refine ⟨?_, ?_, ?_, ?_, ?_⟩
  · intro cfg s hs p hp
    exact reachable_oddsValid hs p hp
  · intro game r hb
    unfold updOdds
    rw [hb]
  · intro game r q hb hcase
    unfold updOdds
    rw [hb]
    dsimp only
    by_cases h0 : q = 0
    · rw [if_pos h0]
    · rw [if_neg h0]
      rcases hcase with h | hle
      · exact absurd h h0
      · rw [if_pos hle]
  · intro game r q hb h1 hA
    unfold updOdds
    rw [hb]
    dsimp only
    have h0 : ¬ q = 0 := by
      intro h
      rw [h] at h1
      exact absurd h1 (by norm_num)
    rw [if_neg h0, if_neg (not_le.mpr h1), if_pos (by simp [hA])]
  · intro game r q hb h1 hA hB
    unfold updOdds
    rw [hb]
    dsimp only
    have h0 : ¬ q = 0 := by
      intro h
      rw [h] at h1
      exact absurd h1 (by norm_num)
    rw [if_neg h0, if_neg (not_le.mpr h1), if_neg (by simp [hA]), if_pos (by simp [hB])]

/-- Witness for C7: the invariant evaluated at a concrete reachable state
(one tracked market, fresh from startup) and a concrete ignored delta. -/
theorem odds_validity_invariant_witness :
    ((∀ q : ℚ, (initMarketState ⟨5, 1, 2, true⟩).pA = some q → 1 < q) ∧
      (∀ q : ℚ, (initMarketState ⟨5, 1, 2, true⟩).pB = some q → 1 < q)) ∧
    updOdds (initMarketState ⟨5, 1, 2, true⟩) ⟨1, some (1 / 2)⟩ =
      initMarketState ⟨5, 1, 2, true⟩ := by
  constructor
  · exact odds_validity_invariant.1 sourceConfig
      (runBotInputs sourceConfig [⟨5, 1, 2, true⟩] []) ⟨[⟨5, 1, 2, true⟩], [], rfl⟩
      (5, initMarketState ⟨5, 1, 2, true⟩) (by decide)
  · exact odds_validity_invariant.2.2.1 (initMarketState ⟨5, 1, 2, true⟩)
      ⟨1, some (1 / 2)⟩ (1 / 2) rfl (Or.inr (by norm_num))

/-- C6: multiplier law.  The multiplier starts at 1 and is a power of two in
every reachable state; a settlement through a market-closed delta doubles it
on a loss and resets it to 1 on a win; a settlement through an
execution-complete order report against a record holding a bet does the
same, while against a record with no bet the report throws (bot.js 659
reads the bet's selection id unguarded) before the multiplier update, so no
doubling happens; and the multiplier is mutated only at settlement: a
market-change delta whose status is not CLOSED, an order report failing the
settlement guard, and every connection-level event leave it unchanged. -/
theorem multiplier_law :
    (∀ ms, (initState ms).multiplier = 1) ∧
    (∀ cfg s, Reachable cfg s → ∃ k : ℕ, s.multiplier = 2 ^ k) ∧
    (∀ cfg nbi (s : BotState) (id : ℕ) (md : MarketDef) (rs : List RunnerDef)
        (w : RunnerDef) (game : MarketState) (b : Bet),
      alookup s.store id = some game → game.isOpen = true →
      md.inPlay = false → md.score = none → md.status = some MktStatus.CLOSED →
      md.runners = some rs → rs.find? (fun r => r.isWinner) = some w →
      game.bet = some b →
      ((w.id ≠ b.selectionId →
          (processMC cfg nbi s ⟨id, some md, none⟩).multiplier = s.multiplier * 2) ∧
       (w.id = b.selectionId →
          (processMC cfg nbi s ⟨id, some md, none⟩).multiplier = 1))) ∧
    (∀ (s : BotState) (id : ℕ) (game : MarketState) (b : Bet) (o : OrderReport)
        (pnl : ℚ),
      o.execComplete = true → o.profit = some pnl →
      alookup s.orderIds id = some (OrdId.live o.betId) →
      game.bet = some b →
      ((¬ 0 < pnl → ∃ s', settleOrder s id game o = some s' ∧
          s'.multiplier = s.multiplier * 2) ∧
       (0 < pnl → ∃ s', settleOrder s id game o = some s' ∧ s'.multiplier = 1))) ∧
    (∀ (s : BotState) (id : ℕ) (game : MarketState) (o : OrderReport),
      o.execComplete = true → o.profit.isSome = true →
      alookup s.orderIds id = some (OrdId.live o.betId) →
      game.bet = none →
      settleOrder s id game o = none) ∧
    (∀ cfg nbi (s : BotState) (mc : MarketChange),
      ¬ ((mc.marketDefinition.bind (fun md => md.status)) = some MktStatus.CLOSED) →
      (processMC cfg nbi s mc).multiplier = s.multiplier) ∧
    (∀ (s : BotState) (id : ℕ) (game : MarketState) (o : OrderReport),
      ¬ (o.execComplete = true ∧ o.profit.isSome = true ∧
         alookup s.orderIds id = some (OrdId.live o.betId)) →
      settleOrder s id game o = some s) ∧
    (∀ cfg (s : BotState),
      (stepMsg cfg s Input.statusSuccess).multiplier = s.multiplier ∧
      (stepMsg cfg s Input.connLost).multiplier = s.multiplier ∧
      (stepMsg cfg s Input.connect).multiplier = s.multiplier) := by
  refine ⟨fun ms => rfl, ?_, ?_, ?_, ?_, ?_, ?_, ?_⟩
  · intro cfg s hs
    exact reachable_powTwo hs
  · intro cfg nbi s id md rs w game b hlk hopen hip hsc hst hrun hfind hbet
    constructor
    · intro hw
      have hbw : (w.id == b.selectionId) = false := beq_eq_false_iff_ne.mpr hw
      simp [processMC, rcBlock, scoreBlock, closedBlock, settleClosed,
        hlk, hopen, hip, hsc, hst, hrun, hfind, hbet, hbw]
    · intro hw
      have hbw : (w.id == b.selectionId) = true := by simp [hw]
      simp [processMC, rcBlock, scoreBlock, closedBlock, settleClosed,
        hlk, hopen, hip, hsc, hst, hrun, hfind, hbet, hbw]
  · intro s id game b o pnl ho hp hlk hbet
    constructor
    · intro hw
      simp [settleOrder, ho, hp, hlk, hbet, hw]
    · intro hw
      simp [settleOrder, ho, hp, hlk, hbet, hw]
  · intro s id game o ho hp hlk hbet
    unfold settleOrder
    rw [if_pos ⟨ho, hp, hlk⟩, hbet]
  · intro cfg nbi s mc hc
    exact processMC_multiplier_open cfg nbi s mc hc
  · intro s id game o h
    unfold settleOrder
    rw [if_neg h]
  · intro cfg s
    exact ⟨(subscribe_snd_effects { s with isAuthenticated := true }).2, rfl, rfl⟩

/-- Witness for C6: the invariant at a concrete reachable state; a concrete
losing execution-complete report against a record with a bet doubling the
multiplier; the same report against a bet-less record throwing instead; and
a non-CLOSED delta leaving the multiplier unchanged. -/
theorem multiplier_law_witness :
    (∃ k : ℕ, (runBotInputs sourceConfig [] []).multiplier = 2 ^ k) ∧
    (∃ s', settleOrder { initState [] with orderIds := [(7, OrdId.live 42)] } 7
        { initMarketState ⟨7, 1, 2, true⟩ with bet := some ⟨1, 10, 3⟩ }
        ⟨true, some (-10), 42⟩ = some s' ∧
      s'.multiplier =
        { initState [] with orderIds := [(7, OrdId.live 42)] }.multiplier * 2) ∧
    settleOrder { initState [] with orderIds := [(7, OrdId.live 42)] } 7
        (initMarketState ⟨7, 1, 2, true⟩) ⟨true, some (-10), 42⟩ = none ∧
    (processMC sourceConfig 0 { initState [] with orderIds := [(7, OrdId.live 42)] }
        ⟨7, none, none⟩).multiplier =
      { initState [] with orderIds := [(7, OrdId.live 42)] }.multiplier := by
  refine ⟨?_, ?_, ?_, ?_⟩
  · exact multiplier_law.2.1 sourceConfig (runBotInputs sourceConfig [] []) ⟨[], [], rfl⟩
  · exact (multiplier_law.2.2.2.1 { initState [] with orderIds := [(7, OrdId.live 42)] } 7
      { initMarketState ⟨7, 1, 2, true⟩ with bet := some ⟨1, 10, 3⟩ } ⟨1, 10, 3⟩
      ⟨true, some (-10), 42⟩ (-10) rfl rfl (by decide) rfl).1 (by norm_num)
  · exact multiplier_law.2.2.2.2.1 { initState [] with orderIds := [(7, OrdId.live 42)] } 7
      (initMarketState ⟨7, 1, 2, true⟩) ⟨true, some (-10), 42⟩ rfl rfl (by decide) rfl
  · exact multiplier_law.2.2.2.2.2.1 sourceConfig 0
      { initState [] with orderIds := [(7, OrdId.live 42)] } ⟨7, none, none⟩ (by decide)

/-! ## Subscription lemmas (for C8) -/

/-- Sequence ids of the emitted market-data subscription messages. -/
def marketSubIds (msgs : List OutMsg) : List ℕ :=
  msgs.filterMap (fun m => match m with
    | OutMsg.marketSub k _ => some k
    | OutMsg.orderSub _ => none)

/-- Sizes of the market-id batches of the emitted subscription messages. -/
def batchSizes (msgs : List OutMsg) : List ℕ :=
  msgs.filterMap (fun m => match m with
    | OutMsg.marketSub _ ids => some ids.length
    | OutMsg.orderSub _ => none)

def isOrderSubMsg : OutMsg → Bool
  | OutMsg.marketSub _ _ => false
  | OutMsg.orderSub _ => true

/-- The open market ids as computed at the top of `subscribeToOpenMarkets`. -/
def openMarketIdsOf (s : BotState) : List ℕ :=
  (s.store.filter (fun p => p.2.isOpen)).map (fun p => p.1)

theorem chunksOf10_nil : chunksOf10 [] = [] := by rw [chunksOf10]

theorem chunksOf10_length (l : List ℕ) :
    (chunksOf10 l).length = (l.length + 9) / 10 := by
  induction l using chunksOf10.induct with
  | case1 => rw [chunksOf10_nil]; rfl
  | case2 x xs ih =>
    rw [chunksOf10]
    simp only [List.length_cons, List.length_take, List.length_drop] at *
    omega

theorem chunksOf10_sizes (l : List ℕ) : ∀ c ∈ chunksOf10 l, c.length ≤ 10 := by
  induction l using chunksOf10.induct with
  | case1 => intro c hc; rw [chunksOf10_nil] at hc; cases hc
  | case2 x xs ih =>
    intro c hc
    rw [chunksOf10] at hc
    rcases List.mem_cons.mp hc with hv | hmem
    · subst hv
      simp only [List.length_cons, List.length_take]
      omega
    · exact ih c hmem

theorem chunksOf10_sum (l : List ℕ) :
    ((chunksOf10 l).map List.length).sum = l.length := by
  induction l using chunksOf10.induct with
  | case1 => rw [chunksOf10_nil]; rfl
  | case2 x xs ih =>
    rw [chunksOf10]
    simp only [List.map_cons, List.sum_cons, List.length_cons, List.length_take,
      List.length_drop] at *
    omega

theorem chunksOf10_eq_nil (l : List ℕ) : chunksOf10 l = [] ↔ l = [] := by
  cases l with
  | nil => simp [chunksOf10]
  | cons x xs =>
    rw [chunksOf10]
    simp

theorem chunksOf10_dropLast (l : List ℕ) :
    ∀ c ∈ (chunksOf10 l).dropLast, c.length = 10 := by
  induction l using chunksOf10.induct with
  | case1 => intro c hc; rw [chunksOf10_nil] at hc; cases hc
  | case2 x xs ih =>
    intro c hc
    rw [chunksOf10] at hc
    by_cases hrest : chunksOf10 (xs.drop 9) = []
    · rw [hrest] at hc
      cases hc
    · rw [List.dropLast_cons_of_ne_nil hrest] at hc
      rcases List.mem_cons.mp hc with hv | hmem
      · subst hv
        have hx : xs.drop 9 ≠ [] := fun hh => hrest (by rw [hh]; exact chunksOf10_nil)
        have hlen : 9 ≤ xs.length := by
          by_contra hlt
          exact hx (List.drop_eq_nil_of_le (by omega))
        simp only [List.length_cons, List.length_take]
        omega
      · exact ih c hmem

theorem batchSizes_subMsgs : ∀ (bs : List (List ℕ)) (k : ℕ),
    batchSizes (subMsgs k bs) = bs.map List.length := by
  intro bs
  induction bs with
  | nil => intro k; rfl
  | cons b bs ih =>
    intro k
    simp only [subMsgs, batchSizes, List.filterMap_cons, List.map_cons]
    rw [← batchSizes]
    rw [ih (k + 1)]

theorem marketSubIds_subMsgs : ∀ (bs : List (List ℕ)) (k : ℕ),
    marketSubIds (subMsgs k bs) = List.range' k bs.length := by
  intro bs
  induction bs with
  | nil => intro k; rfl
  | cons b bs ih =>
    intro k
    simp only [subMsgs, marketSubIds, List.filterMap_cons, List.length_cons,
      List.range'_succ]
    rw [← marketSubIds]
    rw [ih (k + 1)]

theorem countP_orderSub_subMsgs : ∀ (bs : List (List ℕ)) (k : ℕ),
    (subMsgs k bs).countP isOrderSubMsg = 0 := by
  intro bs
  induction bs with
  | nil => intro k; rfl
  | cons b bs ih =>
    intro k
    simp only [subMsgs, List.countP_cons]
    rw [ih (k + 1)]
    rfl

/-- Under the hypotheses of a first trigger with markets to subscribe,
the emitted messages and the state update of `subscribeToOpenMarkets`. -/
theorem subscribe_spec (s : BotState)
    (hsub : s.isSubscribed = false) (hws : s.wsPresent = true)
    (hne : openMarketIdsOf s ≠ []) :
    (subscribeToOpenMarkets s).1 =
      subMsgs 1 (chunksOf10 (openMarketIdsOf s)) ++ [OutMsg.orderSub 999] ∧
    (subscribeToOpenMarkets s).2 = { s with isSubscribed := true } := by
  unfold subscribeToOpenMarkets
  rw [if_neg (by rw [hsub]; exact Bool.false_ne_true)]
  dsimp only
  rw [if_neg (by
    rw [hws]
    rintro (h | h)
    · exact Bool.true_eq_false.mp h
    · exact hne h)]
  exact ⟨rfl, rfl⟩

/-- C8: subscription contract.  On the first trigger of a connection with
open markets present, the operation emits ceil(n/10) market-data
subscription batches, each of at most 10 market ids, every batch before the
last of exactly 10, the batch sizes summing to n, with pairwise-distinct
sequence ids; the message list ends with exactly one order subscription
(id 999); the subscribed flag is set, and a repeated trigger emits nothing.
With n = 25 the batch sizes are exactly 10, 10, 5. -/
theorem subscription_contract (s : BotState)
    (hsub : s.isSubscribed = false) (hws : s.wsPresent = true)
    (hne : openMarketIdsOf s ≠ []) :
    (batchSizes (subscribeToOpenMarkets s).1).length =
      ((openMarketIdsOf s).length + 9) / 10 ∧
    (∀ sz ∈ batchSizes (subscribeToOpenMarkets s).1, sz ≤ 10) ∧
    (∀ sz ∈ (batchSizes (subscribeToOpenMarkets s).1).dropLast, sz = 10) ∧
    (batchSizes (subscribeToOpenMarkets s).1).sum = (openMarketIdsOf s).length ∧
    (marketSubIds (subscribeToOpenMarkets s).1).Nodup ∧
    (subscribeToOpenMarkets s).1.countP isOrderSubMsg = 1 ∧
    (subscribeToOpenMarkets s).1.getLast? = some (OutMsg.orderSub 999) ∧
    (subscribeToOpenMarkets s).2.isSubscribed = true ∧
    (subscribeToOpenMarkets (subscribeToOpenMarkets s).2).1 = [] ∧
    ((openMarketIdsOf s).length = 25 →
      batchSizes (subscribeToOpenMarkets s).1 = [10, 10, 5]) := by
  obtain ⟨hmsgs, hst⟩ := subscribe_spec s hsub hws hne
  have hbs : batchSizes (subscribeToOpenMarkets s).1 =
      (chunksOf10 (openMarketIdsOf s)).map List.length := by
    rw [hmsgs]
    unfold batchSizes
    rw [List.filterMap_append]
    rw [← batchSizes, batchSizes_subMsgs]
    simp [batchSizes]
  have hids : marketSubIds (subscribeToOpenMarkets s).1 =
      List.range' 1 (chunksOf10 (openMarketIdsOf s)).length := by
    rw [hmsgs]
    unfold marketSubIds
    rw [List.filterMap_append]
    rw [← marketSubIds, marketSubIds_subMsgs]
    simp [marketSubIds]
  refine ⟨?_, ?_, ?_, ?_, ?_, ?_, ?_, ?_, ?_, ?_⟩
  · rw [hbs, List.length_map, chunksOf10_length]
  · intro sz hsz
    rw [hbs] at hsz
    rcases List.mem_map.mp hsz with ⟨c, hc, hlen⟩
    rw [← hlen]
    exact chunksOf10_sizes _ c hc
  · intro sz hsz
    rw [hbs, ← List.map_dropLast] at hsz
    rcases List.mem_map.mp hsz with ⟨c, hc, hlen⟩
    rw [← hlen]
    exact chunksOf10_dropLast _ c hc
  · rw [hbs, chunksOf10_sum]
  · rw [hids]
    exact List.nodup_range' _ _
  · rw [hmsgs, List.countP_append, countP_orderSub_subMsgs]
    rfl
  · rw [hmsgs]
    exact List.getLast?_concat _
  · rw [hst]
  · rw [hst]
    unfold subscribeToOpenMarkets
    rw [if_pos rfl]
  · intro h25
    have hlen3 : (batchSizes (subscribeToOpenMarkets s).1).length = 3 := by
      rw [hbs, List.length_map, chunksOf10_length, h25]
    have hsum : (batchSizes (subscribeToOpenMarkets s).1).sum = 25 := by
      rw [hbs, chunksOf10_sum, h25]
    obtain ⟨a, b, c, habc⟩ := List.length_eq_three.mp hlen3
    have hd : ∀ sz ∈ (batchSizes (subscribeToOpenMarkets s).1).dropLast, sz = 10 := by
      intro sz hsz
      rw [hbs, ← List.map_dropLast] at hsz
      rcases List.mem_map.mp hsz with ⟨cc, hc, hlen⟩
      rw [← hlen]
      exact chunksOf10_dropLast _ cc hc
    rw [habc] at hsum hd ⊢
    have ha : a = 10 := hd a (by simp)
    have hb : b = 10 := hd b (by simp)
    simp only [List.sum_cons, List.sum_nil] at hsum
    subst ha
    subst hb
    have hc5 : c = 5 := by omega
    rw [hc5]

/-- Witness for C8: a fresh state tracking 25 open markets. -/
theorem subscription_contract_witness :
    batchSizes (subscribeToOpenMarkets
      (initState ((List.range 25).map (fun i => ⟨i, 2 * i, 2 * i + 1, true⟩)))).1 =
      [10, 10, 5] :=
  (subscription_contract
      (initState ((List.range 25).map (fun i => ⟨i, 2 * i, 2 * i + 1, true⟩)))
      rfl rfl (by decide)).2.2.2.2.2.2.2.2.2 (by decide)

/-- A CLOSED delta for a tracked open market clears both process-wide bet
flags and removes the market, leaving every other record in place. -/
theorem closedStep_clears (cfg : Config) (nbi : ℕ) (s : BotState)
    (id : ℕ) (md : MarketDef) (game : MarketState)
    (rc : Option (List RunnerDelta))
    (hlk : alookup s.store id = some game)
    (hopen : game.isOpen = true)
    (hst : md.status = some MktStatus.CLOSED)
    (hip : md.inPlay = false) :
    (processMC cfg nbi s ⟨id, some md, rc⟩).hasOpenBet = false ∧
    (processMC cfg nbi s ⟨id, some md, rc⟩).testBetPlaced = false ∧
    alookup (processMC cfg nbi s ⟨id, some md, rc⟩).store id = none ∧
    (∀ j, j ≠ id →
      alookup (processMC cfg nbi s ⟨id, some md, rc⟩).store j = alookup s.store j) := by
  unfold processMC
  dsimp only
  rw [hlk]
  dsimp only
  rw [hopen]
  rw [if_neg (by simp)]
  rw [if_neg (by simp [hip])]
  simp only [Option.map_some', Option.getD_some]
  set p1 := rcBlock cfg nbi s game id md.inPlay rc with hp1def
  set p2 := scoreBlock cfg nbi p1.1 p1.2 id (some md) with hp2def
  have hcb := closedBlock_closed_effects cfg p2.1 p2.2 id (some md) (by simp [hst])
  have hs1 := (rcBlock_effects cfg nbi s game id md.inPlay rc).1
  have hs2 := (scoreBlock_effects cfg nbi p1.1 p1.2 id (some md)).1
  rw [← hp1def] at hs1
  rw [← hp2def] at hs2
  refine ⟨hcb.1, hcb.2.1, ?_, ?_⟩
  · rw [hcb.2.2.1, hs2, hs1]
    exact alookup_adel_self s.store id
  · intro j hj
    rw [hcb.2.2.1, hs2, hs1]
    exact alookup_adel_ne s.store id j hj

/-- C10 (implicit): processing a CLOSED delta for a tracked open market
always clears the process-wide `hasOpenBet` and `testBetPlaced` flags,
whether or not the closed market held a bet — while every other market's
record, any recorded bet included, is left in place.  Closing a bet-less
market therefore clears the outstanding status of a bet recorded on a
different market. -/
theorem closed_delta_clears_flags (cfg : Config) (nbi : ℕ) (s : BotState)
    (id : ℕ) (md : MarketDef) (game : MarketState)
    (rc : Option (List RunnerDelta))
    (hlk : alookup s.store id = some game)
    (hopen : game.isOpen = true)
    (hst : md.status = some MktStatus.CLOSED)
    (hip : md.inPlay = false) :
    (processMC cfg nbi s ⟨id, some md, rc⟩).hasOpenBet = false ∧
    (processMC cfg nbi s ⟨id, some md, rc⟩).testBetPlaced = false ∧
    alookup (processMC cfg nbi s ⟨id, some md, rc⟩).store id = none ∧
    (∀ j, j ≠ id →
      alookup (processMC cfg nbi s ⟨id, some md, rc⟩).store j = alookup s.store j) :=
  closedStep_clears cfg nbi s id md game rc hlk hopen hst hip

/-- State used by the C10 witness: market 1 holds a recorded bet (the
process-wide flag is set), market 2 is open without a bet. -/
def w10Game1 : MarketState :=
  { isOpen := true, selectionIdA := 11, selectionIdB := 12, pA := some 3, pB := none,
    sets := [], hasFirstSetEnded := false, status := MStatus.IN_PLAY,
    bet := some ⟨11, 10, 3⟩ }

def w10Game2 : MarketState :=
  { isOpen := true, selectionIdA := 21, selectionIdB := 22, pA := none, pB := none,
    sets := [], hasFirstSetEnded := false, status := MStatus.IN_PLAY, bet := none }

def w10Store : List (ℕ × MarketState) := [(1, w10Game1), (2, w10Game2)]

def w10State : BotState :=
  { initState [] with store := w10Store, hasOpenBet := true, testBetPlaced := true }

/-- Witness for C10: closing bet-less market 2 clears both process-wide
flags even though market 1 still holds its recorded bet. -/
theorem closed_delta_clears_flags_witness :
    (processMC sourceConfig 0 w10State
        ⟨2, some ⟨false, some MktStatus.CLOSED, none, none⟩, none⟩).hasOpenBet = false ∧
    (processMC sourceConfig 0 w10State
        ⟨2, some ⟨false, some MktStatus.CLOSED, none, none⟩, none⟩).testBetPlaced = false ∧
    alookup (processMC sourceConfig 0 w10State
        ⟨2, some ⟨false, some MktStatus.CLOSED, none, none⟩, none⟩).store 1 =
      some w10Game1 := by
  have h := closed_delta_clears_flags sourceConfig 0 w10State 2
    ⟨false, some MktStatus.CLOSED, none, none⟩ w10Game2 none (by decide) rfl rfl rfl
  refine ⟨h.1, h.2.1, ?_⟩
  rw [h.2.2.2 1 (by decide)]
  decide

/-- C9: settlement idempotence.  Processing a CLOSED delta removes the
market from the store and from the order-id map; and once a market
identifier is absent from the store, any further market-change delta or
order-change entry for it leaves the whole state unchanged — no
settlement, balance change, multiplier change or odds update. -/
theorem settlement_idempotent :
    (∀ cfg nbi (s : BotState) (id : ℕ) (md : MarketDef) (game : MarketState)
        (rc : Option (List RunnerDelta)),
      alookup s.store id = some game → game.isOpen = true →
      md.status = some MktStatus.CLOSED → md.inPlay = false →
      alookup (processMC cfg nbi s ⟨id, some md, rc⟩).store id = none ∧
      alookup (processMC cfg nbi s ⟨id, some md, rc⟩).orderIds id = none) ∧
    (∀ cfg nbi (s : BotState) (mc : MarketChange),
      alookup s.store mc.id = none → processMC cfg nbi s mc = s) ∧
    (∀ cfg (s : BotState) (oc : OrderChange),
      alookup s.store oc.marketId = none → processOC cfg s oc = (s, false)) := by
  refine ⟨?_, ?_, ?_⟩
  · intro cfg nbi s id md game rc hlk hopen hst hip
    unfold processMC
    dsimp only
    rw [hlk]
    dsimp only
    rw [hopen]
    rw [if_neg (by simp)]
    rw [if_neg (by simp [hip])]
    simp only [Option.map_some', Option.getD_some]
    set p1 := rcBlock cfg nbi s game id md.inPlay rc with hp1def
    set p2 := scoreBlock cfg nbi p1.1 p1.2 id (some md) with hp2def
    have hcb := closedBlock_closed_effects cfg p2.1 p2.2 id (some md) (by simp [hst])
    constructor
    · rw [hcb.2.2.1]
      exact alookup_adel_self _ id
    · rw [hcb.2.2.2.1]
      exact alookup_adel_self _ id
  · intro cfg nbi s mc h
    unfold processMC
    rw [h]
  · intro cfg s oc h
    unfold processOC
    rw [h]

/-- Witness for C9: after market 2's closure is processed, a duplicate
closure delta and an order-change entry for market 2 are both no-ops. -/
theorem settlement_idempotent_witness :
    (alookup (runBotInputs sourceConfig [⟨2, 21, 22, false⟩]
        [Input.mcm [(⟨2, some ⟨false, some MktStatus.CLOSED, none, none⟩, none⟩, 0)]]).store
      2 = none) ∧
    processMC sourceConfig 0
      (runBotInputs sourceConfig [⟨2, 21, 22, false⟩]
        [Input.mcm [(⟨2, some ⟨false, some MktStatus.CLOSED, none, none⟩, none⟩, 0)]])
      ⟨2, some ⟨false, some MktStatus.CLOSED, none, none⟩, none⟩ =
      runBotInputs sourceConfig [⟨2, 21, 22, false⟩]
        [Input.mcm [(⟨2, some ⟨false, some MktStatus.CLOSED, none, none⟩, none⟩, 0)]] ∧
    processOC sourceConfig
      (runBotInputs sourceConfig [⟨2, 21, 22, false⟩]
        [Input.mcm [(⟨2, some ⟨false, some MktStatus.CLOSED, none, none⟩, none⟩, 0)]])
      ⟨2, some [⟨true, some 5, 77⟩]⟩ =
      (runBotInputs sourceConfig [⟨2, 21, 22, false⟩]
        [Input.mcm [(⟨2, some ⟨false, some MktStatus.CLOSED, none, none⟩, none⟩, 0)]],
       false) := by
  refine ⟨?_, ?_, ?_⟩
  · exact (settlement_idempotent.1 sourceConfig 0
      (runBotInputs sourceConfig [⟨2, 21, 22, false⟩] [])
      2 ⟨false, some MktStatus.CLOSED, none, none⟩
      { isOpen := true, selectionIdA := 21, selectionIdB := 22, pA := none, pB := none,
        sets := [], hasFirstSetEnded := false, status := MStatus.IN_PLAY, bet := none }
      none (by decide) rfl rfl rfl).1
  · exact settlement_idempotent.2.1 sourceConfig 0 _ _ (by decide)
  · exact settlement_idempotent.2.2 sourceConfig _ _ (by decide)

/-- The test-bet trigger path through one market-change delta, characterized
symbolically: an in-play runner delta whose updated odds for player A match
the test-bet target places a simulated test bet on that market, sets the
process-wide flags, and touches no other market's record. -/
theorem testbet_trigger_fires (cfg : Config) (nbi : ℕ) (s : BotState) (id : ℕ)
    (rcl : List RunnerDelta) (game game1 : MarketState) (a : ℚ)
    (htest : cfg.testBetEnabled = true) (hsim : cfg.enableSimulation = true)
    (hlk : alookup s.store id = some game) (hopen : game.isOpen = true)
    (htbp : s.testBetPlaced = false) (hob : s.hasOpenBet = false)
    (hg1 : rcl.foldl updOdds game = game1)
    (hpa : game1.pA = some a)
    (ha0 : a ≠ 0) (hatol : |a - testBetOdds| ≤ testBetOddsTolerance) :
    (∃ g', alookup (processMC cfg nbi s
        ⟨id, some ⟨true, none, none, none⟩, some rcl⟩).store id = some g' ∧
      g'.bet = some ⟨game1.selectionIdA, betSizeOf cfg s, a⟩) ∧
    (processMC cfg nbi s ⟨id, some ⟨true, none, none, none⟩, some rcl⟩).hasOpenBet = true ∧
    (processMC cfg nbi s ⟨id, some ⟨true, none, none, none⟩, some rcl⟩).testBetPlaced = true ∧
    (∀ j, j ≠ id →
      alookup (processMC cfg nbi s
        ⟨id, some ⟨true, none, none, none⟩, some rcl⟩).store j = alookup s.store j) := by
  unfold processMC
  dsimp only
  rw [hlk]
  dsimp only
  rw [hopen]
  rw [if_neg (by simp)]
  rw [if_neg (by simp [htest])]
  simp only [Option.map_some', Option.getD_some]
  unfold rcBlock
  rw [if_pos ⟨rfl, rfl⟩]
  dsimp only
  simp only [Option.getD_some]
  rw [hg1]
  unfold testBetStep
  rw [if_pos ⟨htest, rfl, htbp, hob⟩]
  rw [hpa]
  dsimp only
  rw [if_pos ⟨ha0, hatol⟩]
  unfold placeBet
  rw [if_pos hsim]
  dsimp only
  unfold scoreBlock
  dsimp only [Option.bind]
  unfold closedBlock
  rw [if_neg (by simp)]
  dsimp only
  simp only [Option.map_some', Option.getD_some, if_true, true_and]
  refine ⟨⟨_, alookup_aset_self _ _ _, rfl⟩, ?_⟩
  intro j hj
  exact alookup_aset_ne _ _ _ _ hj

/-- The initial markets and the three-message run refuting C1 under the
source configuration: a test bet is placed on market 1, bet-less market 2
closes (clearing the process-wide flags), and a second test bet is then
placed on market 3 while market 1 still holds its unsettled bet. -/
def msC1 : List InitMarket :=
  [⟨1, 11, 12, false⟩, ⟨2, 21, 22, false⟩, ⟨3, 31, 32, false⟩]

def c1mc1 : MarketChange := ⟨1, some ⟨true, none, none, none⟩, some [⟨11, some (3 / 2)⟩]⟩

def c1mc2 : MarketChange := ⟨2, some ⟨false, some MktStatus.CLOSED, none, none⟩, none⟩

def c1mc3 : MarketChange := ⟨3, some ⟨true, none, none, none⟩, some [⟨31, some (3 / 2)⟩]⟩

def c1Inputs : List Input :=
  [Input.mcm [(c1mc1, 0)], Input.mcm [(c1mc2, 0)], Input.mcm [(c1mc3, 0)]]

def c1s1 : BotState := processMC sourceConfig 0 (initState msC1) c1mc1

def c1s2 : BotState := processMC sourceConfig 0 c1s1 c1mc2

def c1s3 : BotState := processMC sourceConfig 0 c1s2 c1mc3

/-- C1 is violated by the code: a reachable state (under the source
configuration) in which two distinct markets both hold non-null unsettled
bets.  Closing bet-less market 2 cleared `hasOpenBet` and `testBetPlaced`
although market 1's bet was still outstanding, so the market-3 trigger
fired again. -/
theorem two_unsettled_bets_reachable :
    Reachable sourceConfig c1s3 ∧
    (∃ g1, alookup c1s3.store 1 = some g1 ∧ g1.bet.isSome = true) ∧
    (∃ g3, alookup c1s3.store 3 = some g3 ∧ g3.bet.isSome = true) ∧
    c1s3.hasOpenBet = true := by
  have h1 : (∃ g', alookup c1s1.store 1 = some g' ∧
        g'.bet = some ⟨11, betSizeOf sourceConfig (initState msC1), 3 / 2⟩) ∧
      c1s1.hasOpenBet = true ∧ c1s1.testBetPlaced = true ∧
      (∀ j, j ≠ 1 → alookup c1s1.store j = alookup (initState msC1).store j) :=
    testbet_trigger_fires sourceConfig 0 (initState msC1) 1 [⟨11, some (3 / 2)⟩]
      (initMarketState ⟨1, 11, 12, false⟩)
      { initMarketState ⟨1, 11, 12, false⟩ with pA := some (3 / 2) } (3 / 2)
      rfl rfl (by decide) rfl rfl rfl
      (by norm_num [updOdds, initMarketState]) rfl (by norm_num)
      (by norm_num [testBetOdds, testBetOddsTolerance])
  have hlk2 : alookup c1s1.store 2 = some (initMarketState ⟨2, 21, 22, false⟩) := by
    rw [h1.2.2.2 2 (by decide)]
    decide
  have h2 : c1s2.hasOpenBet = false ∧ c1s2.testBetPlaced = false ∧
      alookup c1s2.store 2 = none ∧
      (∀ j, j ≠ 2 → alookup c1s2.store j = alookup c1s1.store j) :=
    closedStep_clears sourceConfig 0 c1s1 2
      ⟨false, some MktStatus.CLOSED, none, none⟩
      (initMarketState ⟨2, 21, 22, false⟩) none hlk2 rfl rfl rfl
  have hlk3 : alookup c1s2.store 3 = some (initMarketState ⟨3, 31, 32, false⟩) := by
    rw [h2.2.2.2 3 (by decide), h1.2.2.2 3 (by decide)]
    decide
  have h3 : (∃ g', alookup c1s3.store 3 = some g' ∧
        g'.bet = some ⟨31, betSizeOf sourceConfig c1s2, 3 / 2⟩) ∧
      c1s3.hasOpenBet = true ∧ c1s3.testBetPlaced = true ∧
      (∀ j, j ≠ 3 → alookup c1s3.store j = alookup c1s2.store j) :=
    testbet_trigger_fires sourceConfig 0 c1s2 3 [⟨31, some (3 / 2)⟩]
      (initMarketState ⟨3, 31, 32, false⟩)
      { initMarketState ⟨3, 31, 32, false⟩ with pA := some (3 / 2) } (3 / 2)
      rfl rfl hlk3 rfl h2.2.1 h2.1
      (by norm_num [updOdds, initMarketState]) rfl (by norm_num)
      (by norm_num [testBetOdds, testBetOddsTolerance])
  refine ⟨⟨msC1, c1Inputs, rfl⟩, ?_, ?_, h3.2.1⟩
  · obtain ⟨g1, hg1, hb1⟩ := h1.1
    refine ⟨g1, ?_, by rw [hb1]; rfl⟩
    rw [h3.2.2.2 1 (by decide), h2.2.2.2 1 (by decide)]
    exact hg1
  · obtain ⟨g3, hg3, hb3⟩ := h3.1
    exact ⟨g3, hg3, by rw [hb3]; rfl⟩

/-- C5: settlement accounting.  Settling a bet of stake `size` at price `p`
through a market-closed delta credits, on a win, profit
`(p - 1) * size * (1 - 0.05)` plus the returned stake to the simulated
balance, records that profit, and resets the multiplier; on a loss it
records profit `-size`, debits the stake, and doubles the multiplier. -/
theorem settlement_accounting (cfg : Config) (nbi : ℕ) (s : BotState) (id : ℕ)
    (md : MarketDef) (rs : List RunnerDef) (w : RunnerDef) (game : MarketState)
    (sel : ℕ) (size p : ℚ)
    (hsim : cfg.enableSimulation = true)
    (hlk : alookup s.store id = some game) (hopen : game.isOpen = true)
    (hip : md.inPlay = false) (hsc : md.score = none)
    (hst : md.status = some MktStatus.CLOSED) (hrun : md.runners = some rs)
    (hfind : rs.find? (fun r => r.isWinner) = some w)
    (hbet : game.bet = some ⟨sel, size, p⟩) :
    (w.id = sel →
      (processMC cfg nbi s ⟨id, some md, none⟩).simBalance =
          s.simBalance + ((p - 1) * size * (1 - 5 / 100) + size) ∧
      (processMC cfg nbi s ⟨id, some md, none⟩).multiplier = 1 ∧
      (processMC cfg nbi s ⟨id, some md, none⟩).log =
          s.log ++ [LogEntry.betOutcome id sel true ((p - 1) * size * (1 - 5 / 100)),
            LogEntry.marketClosed (some true) ((p - 1) * size * (1 - 5 / 100))]) ∧
    (w.id ≠ sel →
      (processMC cfg nbi s ⟨id, some md, none⟩).simBalance = s.simBalance - size ∧
      (processMC cfg nbi s ⟨id, some md, none⟩).multiplier = s.multiplier * 2 ∧
      (processMC cfg nbi s ⟨id, some md, none⟩).log =
          s.log ++ [LogEntry.betOutcome id sel false (-size),
            LogEntry.marketClosed (some false) (-size)]) := by
  constructor
  · intro hw
    have hbw : (w.id == sel) = true := by simp [hw]
    refine ⟨?_, ?_, ?_⟩ <;>
      · simp [processMC, rcBlock, scoreBlock, closedBlock, settleClosed, commissionKeep,
          hsim, hlk, hopen, hip, hsc, hst, hrun, hfind, hbet, hbw]
        try norm_num
  · intro hw
    have hbw : (w.id == sel) = false := beq_eq_false_iff_ne.mpr hw
    refine ⟨?_, ?_, ?_⟩ <;>
      simp [processMC, rcBlock, scoreBlock, closedBlock, settleClosed, commissionKeep,
        hsim, hlk, hopen, hip, hsc, hst, hrun, hfind, hbet, hbw]

/-- State and delta for the C5 witness: one market with a recorded bet of
stake 10 at price 3, simulated balance 100. -/
def w5Game : MarketState :=
  { isOpen := true, selectionIdA := 11, selectionIdB := 12, pA := none, pB := none,
    sets := [], hasFirstSetEnded := false, status := MStatus.IN_PLAY,
    bet := some ⟨11, 10, 3⟩ }

def w5Store : List (ℕ × MarketState) := [(1, w5Game)]

def w5State : BotState := { initState [] with store := w5Store, hasOpenBet := true }

def w5mdWin : MarketDef :=
  ⟨false, some MktStatus.CLOSED, none, some [⟨11, true⟩, ⟨12, false⟩]⟩

def w5mdLoss : MarketDef :=
  ⟨false, some MktStatus.CLOSED, none, some [⟨12, true⟩, ⟨11, false⟩]⟩

/-- Witness for C5: the win pays 19 profit plus the returned stake
(balance +29); the loss debits the stake and doubles the multiplier. -/
theorem settlement_accounting_witness :
    ((processMC sourceConfig 0 w5State ⟨1, some w5mdWin, none⟩).simBalance =
        w5State.simBalance + ((3 - 1) * 10 * (1 - 5 / 100) + 10) ∧
      (processMC sourceConfig 0 w5State ⟨1, some w5mdWin, none⟩).multiplier = 1) ∧
    w5State.simBalance + ((3 - 1) * 10 * (1 - 5 / 100) + 10) = 100 + 29 ∧
    ((processMC sourceConfig 0 w5State ⟨1, some w5mdLoss, none⟩).simBalance =
        w5State.simBalance - 10 ∧
      (processMC sourceConfig 0 w5State ⟨1, some w5mdLoss, none⟩).multiplier =
        w5State.multiplier * 2) := by
  have hwin := (settlement_accounting sourceConfig 0 w5State 1 w5mdWin
    [⟨11, true⟩, ⟨12, false⟩] ⟨11, true⟩ w5Game 11 10 3
    rfl rfl rfl rfl rfl rfl rfl rfl rfl).1 rfl
  have hloss := (settlement_accounting sourceConfig 0 w5State 1 w5mdLoss
    [⟨12, true⟩, ⟨11, false⟩] ⟨12, true⟩ w5Game 11 10 3
    rfl rfl rfl rfl rfl rfl rfl rfl rfl).2 (by decide)
  refine ⟨⟨hwin.1, hwin.2.1⟩, ?_, ⟨hloss.1, hloss.2.1⟩⟩
  norm_num [w5State, initState, simulationBalance]

/-- The non-test staking mode (`testBetEnabled` flipped off), simulated. -/
def nonTestConfig : Config := ⟨false, true, true⟩

/-- C4 (amended): staking condition in non-test mode.  When the first set
completes for the first time for a tracked open market, with final games
`home`-`away`, a bet is placed on the losing side at its current odds if
and only if the game difference is at most 2, the underdog's odds are at
least 2, and the process-wide `hasOpenBet` flag is false (the code checks
the flag, not the store); other markets' records are untouched. -/
theorem staking_condition (cfg : Config) (nbi : ℕ) (s : BotState) (id : ℕ)
    (md : MarketDef) (sc : ScoreData) (set1 : SetScore) (rest : List SetScore)
    (game : MarketState) (home away : ℕ)
    (htest : cfg.testBetEnabled = false)
    (hsim : cfg.enableSimulation = true)
    (hlk : alookup s.store id = some game)
    (hopen : game.isOpen = true)
    (hbet : game.bet = none)
    (hfse : game.hasFirstSetEnded = false)
    (hmds : md.score = some sc)
    (hsets : sc.sets = some (set1 :: rest))
    (hcomp : set1.completed = true)
    (hhome : set1.homeScore = some home)
    (haway : set1.awayScore = some away)
    (hst : ¬ (md.status = some MktStatus.CLOSED)) :
    (((home : ℤ) - (away : ℤ)).natAbs ≤ 2 ∧
       2 ≤ ((if (away : ℤ) < (home : ℤ) then game.pB else game.pA).getD 0) ∧
       s.hasOpenBet = false →
      (∃ g', alookup (processMC cfg nbi s ⟨id, some md, none⟩).store id = some g' ∧
        g'.bet = some ⟨(if (away : ℤ) < (home : ℤ) then game.selectionIdB else game.selectionIdA),
          betSizeOf cfg s,
          (if (away : ℤ) < (home : ℤ) then game.pB else game.pA).getD 0⟩) ∧
      (processMC cfg nbi s ⟨id, some md, none⟩).hasOpenBet = true) ∧
    (¬ (((home : ℤ) - (away : ℤ)).natAbs ≤ 2 ∧
         2 ≤ ((if (away : ℤ) < (home : ℤ) then game.pB else game.pA).getD 0) ∧
         s.hasOpenBet = false) →
      (∃ g', alookup (processMC cfg nbi s ⟨id, some md, none⟩).store id = some g' ∧
        g'.bet = none) ∧
      (processMC cfg nbi s ⟨id, some md, none⟩).hasOpenBet = s.hasOpenBet) ∧
    (∀ j, j ≠ id →
      alookup (processMC cfg nbi s ⟨id, some md, none⟩).store j = alookup s.store j) := by
  have hcb : ¬ ((Option.bind (some md) (fun m => m.status)) = some MktStatus.CLOSED) := by
    simpa using hst
  unfold processMC
  dsimp only
  rw [hlk]
  dsimp only
  rw [hopen]
  have hio : ¬ (true = false) := by simp
  rw [if_neg hio]
  have hexc : ¬ (cfg.testBetEnabled = false ∧
      (Option.map (fun m => m.inPlay) (some md)).getD false = true ∧
      (Option.bind (some md) (fun m => m.score)).isSome = false) := by
    rintro ⟨-, -, h3⟩
    simp [hmds] at h3
  rw [if_neg hexc]
  simp only [Option.map_some', Option.getD_some]
  unfold rcBlock
  have hrc : ¬ ((none : Option (List RunnerDelta)).isSome = true ∧
      md.inPlay = true) := by simp
  rw [if_neg hrc]
  dsimp only
  unfold scoreBlock
  dsimp only [Option.bind]
  rw [hmds]
  dsimp only
  rw [if_pos htest]
  rw [hsets]
  simp only [Option.getD_some, List.headD_cons]
  simp only [hhome, haway, Option.getD_some]
  rw [if_pos (And.intro (by simp) (And.intro hfse hcomp))]
  refine ⟨?_, ?_, ?_⟩
  · rintro ⟨hd, hu, hob⟩
    rw [if_pos (And.intro hd hu), if_pos hob]
    unfold placeBet
    rw [if_pos hsim]
    dsimp only
    unfold closedBlock
    rw [if_neg hcb]
    dsimp only
    refine ⟨⟨_, alookup_aset_self _ _ _, ?_⟩, rfl⟩
    split <;> rfl
  · intro hneg
    by_cases hd : ((home : ℤ) - (away : ℤ)).natAbs ≤ 2 ∧
        2 ≤ ((if (away : ℤ) < (home : ℤ) then game.pB else game.pA).getD 0)
    · have hob : ¬ s.hasOpenBet = false := fun hsb => hneg ⟨hd.1, hd.2, hsb⟩
      rw [if_pos hd, if_neg hob]
      unfold closedBlock
      rw [if_neg hcb]
      dsimp only
      refine ⟨⟨_, alookup_aset_self _ _ _, ?_⟩, rfl⟩
      split <;> (dsimp only; exact hbet)
    · rw [if_neg hd]
      unfold closedBlock
      rw [if_neg hcb]
      dsimp only
      refine ⟨⟨_, alookup_aset_self _ _ _, ?_⟩, rfl⟩
      split <;> (dsimp only; exact hbet)
  · intro j hj
    unfold placeBet
    rw [if_pos hsim]
    dsimp only
    unfold closedBlock
    rw [if_neg hcb]
    dsimp only
    rw [alookup_aset_ne _ _ _ _ hj]
    by_cases hd : ((home : ℤ) - (away : ℤ)).natAbs ≤ 2 ∧
        2 ≤ ((if (away : ℤ) < (home : ℤ) then game.pB else game.pA).getD 0)
    · rw [if_pos hd]
      by_cases hob : s.hasOpenBet = false
      · rw [if_pos hob]
      · rw [if_neg hob]
    · rw [if_neg hd]

/-- The staking trigger path through one market-change delta, characterized
symbolically: in non-test mode, a delta carrying both a runner price and a
completed first set with game difference at most 2 and updated underdog
odds at least 2 places a simulated bet on that market when the process-wide
`hasOpenBet` flag is false, and touches no other market's record. -/
theorem score_trigger_places (cfg : Config) (nbi : ℕ) (s : BotState) (id : ℕ)
    (rcl : List RunnerDelta) (game game1 : MarketState) (sc : ScoreData)
    (set1 : SetScore) (rest : List SetScore) (home away : ℕ)
    (htest : cfg.testBetEnabled = false) (hsim : cfg.enableSimulation = true)
    (hlk : alookup s.store id = some game) (hopen : game.isOpen = true)
    (hob : s.hasOpenBet = false)
    (hg1 : rcl.foldl updOdds game = game1)
    (hfse : game1.hasFirstSetEnded = false)
    (hsets : sc.sets = some (set1 :: rest))
    (hcomp : set1.completed = true)
    (hhome : set1.homeScore = some home)
    (haway : set1.awayScore = some away)
    (hd : ((home : ℤ) - (away : ℤ)).natAbs ≤ 2)
    (hu : 2 ≤ ((if (away : ℤ) < (home : ℤ) then game1.pB else game1.pA).getD 0)) :
    (∃ g', alookup (processMC cfg nbi s
        ⟨id, some ⟨true, none, some sc, none⟩, some rcl⟩).store id = some g' ∧
      g'.bet.isSome = true) ∧
    (processMC cfg nbi s ⟨id, some ⟨true, none, some sc, none⟩, some rcl⟩).hasOpenBet = true ∧
    (∀ j, j ≠ id →
      alookup (processMC cfg nbi s
        ⟨id, some ⟨true, none, some sc, none⟩, some rcl⟩).store j = alookup s.store j) := by
  unfold processMC
  dsimp only
  rw [hlk]
  dsimp only
  rw [hopen]
  rw [if_neg (by simp)]
  rw [if_neg (by simp)]
  simp only [Option.map_some', Option.getD_some]
  unfold rcBlock
  rw [if_pos ⟨rfl, rfl⟩]
  dsimp only
  simp only [Option.getD_some]
  rw [hg1]
  unfold testBetStep
  rw [if_neg (by simp [htest])]
  unfold scoreBlock
  dsimp only [Option.bind]
  rw [if_pos htest]
  rw [hsets]
  simp only [Option.getD_some, List.headD_cons]
  simp only [hhome, haway, Option.getD_some]
  rw [if_pos (And.intro (by simp) (And.intro hfse hcomp))]
  rw [if_pos (And.intro hd hu)]
  rw [if_pos hob]
  unfold placeBet
  rw [if_pos hsim]
  dsimp only
  unfold closedBlock
  rw [if_neg (by simp)]
  dsimp only
  refine ⟨⟨_, alookup_aset_self _ _ _, rfl⟩, rfl, ?_⟩
  intro j hj
  exact alookup_aset_ne _ _ _ _ hj

/-- The initial markets and the three-message run refuting the original C4
wording under the non-test configuration: the staking trigger places a bet
on market 1, bet-less market 2 closes (clearing the process-wide flag), and
the trigger then places a second bet on market 3 although market 1's bet is
still open in the store. -/
def msC4 : List InitMarket :=
  [⟨1, 11, 12, false⟩, ⟨2, 21, 22, false⟩, ⟨3, 31, 32, false⟩]

def c4sc : ScoreData := ⟨some [⟨some 6, some 4, true⟩]⟩

def c4mc1 : MarketChange := ⟨1, some ⟨true, none, some c4sc, none⟩, some [⟨12, some 3⟩]⟩

def c4mc2 : MarketChange := ⟨2, some ⟨false, some MktStatus.CLOSED, none, none⟩, none⟩

def c4mc3 : MarketChange := ⟨3, some ⟨true, none, some c4sc, none⟩, some [⟨32, some 3⟩]⟩

def c4Inputs : List Input :=
  [Input.mcm [(c4mc1, 0)], Input.mcm [(c4mc2, 0)], Input.mcm [(c4mc3, 0)]]

def c4s1 : BotState := processMC nonTestConfig 0 (initState msC4) c4mc1

def c4s2 : BotState := processMC nonTestConfig 0 c4s1 c4mc2

def c4s3 : BotState := processMC nonTestConfig 0 c4s2 c4mc3

/-- Counterexample to C4 as stated: the staking trigger checks only the
process-wide `hasOpenBet` flag, not "no bet open anywhere in the store".
In the reachable state `c4s2` market 1 holds an open bet while the flag is
false (a bet-less market's closure cleared it), and the next completed-set
delta for market 3 places a second bet anyway. -/
theorem staking_store_check_cex :
    Reachable nonTestConfig c4s3 ∧
    (∃ g1, alookup c4s2.store 1 = some g1 ∧ g1.bet.isSome = true) ∧
    c4s2.hasOpenBet = false ∧
    c4s3 = processMC nonTestConfig 0 c4s2 c4mc3 ∧
    (∃ g3, alookup c4s3.store 3 = some g3 ∧ g3.bet.isSome = true) ∧
    (∃ g1, alookup c4s3.store 1 = some g1 ∧ g1.bet.isSome = true) := by
  have h1 : (∃ g', alookup c4s1.store 1 = some g' ∧ g'.bet.isSome = true) ∧
      c4s1.hasOpenBet = true ∧
      (∀ j, j ≠ 1 → alookup c4s1.store j = alookup (initState msC4).store j) :=
    score_trigger_places nonTestConfig 0 (initState msC4) 1 [⟨12, some 3⟩]
      (initMarketState ⟨1, 11, 12, false⟩)
      { initMarketState ⟨1, 11, 12, false⟩ with pB := some 3 }
      c4sc ⟨some 6, some 4, true⟩ [] 6 4
      rfl rfl (by decide) rfl rfl
      (by norm_num [updOdds, initMarketState]) rfl rfl rfl rfl rfl
      (by decide) (by norm_num [initMarketState])
  have hlk2 : alookup c4s1.store 2 = some (initMarketState ⟨2, 21, 22, false⟩) := by
    rw [h1.2.2 2 (by decide)]
    decide
  have h2 : c4s2.hasOpenBet = false ∧ c4s2.testBetPlaced = false ∧
      alookup c4s2.store 2 = none ∧
      (∀ j, j ≠ 2 → alookup c4s2.store j = alookup c4s1.store j) :=
    closedStep_clears nonTestConfig 0 c4s1 2
      ⟨false, some MktStatus.CLOSED, none, none⟩
      (initMarketState ⟨2, 21, 22, false⟩) none hlk2 rfl rfl rfl
  have hlk3 : alookup c4s2.store 3 = some (initMarketState ⟨3, 31, 32, false⟩) := by
    rw [h2.2.2.2 3 (by decide), h1.2.2 3 (by decide)]
    decide
  have h3 : (∃ g', alookup c4s3.store 3 = some g' ∧ g'.bet.isSome = true) ∧
      c4s3.hasOpenBet = true ∧
      (∀ j, j ≠ 3 → alookup c4s3.store j = alookup c4s2.store j) :=
    score_trigger_places nonTestConfig 0 c4s2 3 [⟨32, some 3⟩]
      (initMarketState ⟨3, 31, 32, false⟩)
      { initMarketState ⟨3, 31, 32, false⟩ with pB := some 3 }
      c4sc ⟨some 6, some 4, true⟩ [] 6 4
      rfl rfl hlk3 rfl h2.1
      (by norm_num [updOdds, initMarketState]) rfl rfl rfl rfl rfl
      (by decide) (by norm_num [initMarketState])
  have hbet1 : ∃ g1, alookup c4s2.store 1 = some g1 ∧ g1.bet.isSome = true := by
    obtain ⟨g1, hg, hb⟩ := h1.1
    refine ⟨g1, ?_, hb⟩
    rw [h2.2.2.2 1 (by decide)]
    exact hg
  refine ⟨⟨msC4, c4Inputs, rfl⟩, hbet1, h2.1, rfl, h3.1, ?_⟩
  obtain ⟨g1, hg, hb⟩ := hbet1
  refine ⟨g1, ?_, hb⟩
  rw [h3.2.2 1 (by decide)]
  exact hg

/-- State used by the C4 witness: one tracked open market whose player-B
odds are 3, with no bet recorded and the process-wide flag clear. -/
def w4Game : MarketState :=
  { isOpen := true, selectionIdA := 11, selectionIdB := 12, pA := none, pB := some 3,
    sets := [], hasFirstSetEnded := false, status := MStatus.IN_PLAY, bet := none }

def w4State : BotState := { initState [] with store := [(1, w4Game)] }

def w4sc : ScoreData := ⟨some [⟨some 6, some 4, true⟩]⟩

def w4md : MarketDef := ⟨true, none, some w4sc, none⟩

def w4sc61 : ScoreData := ⟨some [⟨some 6, some 1, true⟩]⟩

def w4md61 : MarketDef := ⟨true, none, some w4sc61, none⟩

/-- Witness for C4: a completed 6-4 first set with underdog odds 3 places a
bet and raises the flag; a completed 6-1 first set places no bet. -/
theorem staking_condition_witness :
    ((processMC nonTestConfig 0 w4State ⟨1, some w4md, none⟩).hasOpenBet = true ∧
      ∃ g', alookup (processMC nonTestConfig 0 w4State ⟨1, some w4md, none⟩).store 1 =
          some g' ∧ g'.bet.isSome = true) ∧
    ((processMC nonTestConfig 0 w4State ⟨1, some w4md61, none⟩).hasOpenBet = false ∧
      ∃ g', alookup (processMC nonTestConfig 0 w4State ⟨1, some w4md61, none⟩).store 1 =
          some g' ∧ g'.bet = none) := by
  constructor
  · have h := (staking_condition nonTestConfig 0 w4State 1 w4md w4sc
        ⟨some 6, some 4, true⟩ [] w4Game 6 4
        rfl rfl rfl rfl rfl rfl rfl rfl rfl rfl rfl (by decide)).1
        ⟨by decide, by norm_num [w4Game], rfl⟩
    obtain ⟨⟨g', hg, hb⟩, hob⟩ := h
    exact ⟨hob, g', hg, by rw [hb]; rfl⟩
  · have h := (staking_condition nonTestConfig 0 w4State 1 w4md61 w4sc61
        ⟨some 6, some 1, true⟩ [] w4Game 6 1
        rfl rfl rfl rfl rfl rfl rfl rfl rfl rfl rfl (by decide)).2.1
        (fun hc => absurd hc.1 (by decide))
    obtain ⟨⟨g', hg, hb⟩, hob⟩ := h
    exact ⟨hob.trans rfl, g', hg, hb⟩

end UnderdogBot
